import Mathlib

/-!
Verification of the settings-merge engine of `cctx` (`src/merge.rs`).

The merge engine works on `serde_json::Value` documents.  We shallowly embed
JSON values as the inductive type `Json` below; JSON objects are association
lists of key/value pairs (serde_json maps have unique keys, modelled where
needed by `Nodup` hypotheses on the key list).  The iteration order of Rust's
`HashSet` when an allow/deny set is converted back to an array is not
specified; the embedding determinises it as "existing entries first, in
first-occurrence order, then newly inserted entries in source order", which is
one of the admissible orders.  Timestamps (`chrono::Local::now`) are passed in
as an explicit `ts` argument.
-/


/-- Shallow embedding of `serde_json::Value`.  Numbers are collapsed to `Int`:
no claim depends on floating point. -/
inductive Json where
  | null : Json
  | bool : Bool → Json
  | num : Int → Json
  | str : String → Json
  | arr : List Json → Json
  | obj : List (String × Json) → Json
deriving Repr

namespace Json

/-- Model of `Value::as_str`. -/
def asStr : Json → Option String
  | .str s => some s
  | _ => none

/-- Model of `Value::as_array` / `as_array_mut` (whether the value is an array). -/
def asArr : Json → Option (List Json)
  | .arr xs => some xs
  | _ => none

/-- Whether the value is a JSON object (`Value::as_object().is_some()`). -/
def isObj : Json → Bool
  | .obj _ => true
  | _ => false

end Json

/-- First-match lookup in an object's key/value list (`Map::get`). -/
def lookupKey : List (String × Json) → String → Option Json
  | [], _ => none
  | (k', v) :: rest, k => if k' = k then some v else lookupKey rest k

/-- Model of `Map::insert`: replace the value of an existing key in place, otherwise
append the new entry. -/
def setKey : List (String × Json) → String → Json → List (String × Json)
  | [], k, v => [(k, v)]
  | (k', v') :: rest, k, v =>
    if k' = k then (k', v) :: rest else (k', v') :: setKey rest k v

/-- Model of `Map::contains_key`. -/
def containsKey (kvs : List (String × Json)) (k : String) : Bool :=
  (lookupKey kvs k).isSome

/-- Model of `Value::get` on a string key: object lookup, `none` on non-objects. -/
def Json.get : Json → String → Option Json
  | .obj kvs, k => lookupKey kvs k
  | _, _ => none

/-- The record `MergeHistory` of `merge.rs` (the spec's MergeRecord). -/
structure MergeHistory where
  source : String
  timestamp : String
  merged_items : List String
  full_merge : Bool
deriving DecidableEq, Repr

/-- Failure modes of the merge engine: the `anyhow!("Target permissions...")`
type-mismatch errors, and the panics of `serde_json`'s `IndexMut` when a
non-object non-null value is indexed by a string key. -/
inductive MergeErr where
  | typeMismatch : String → MergeErr
  | panic : String → MergeErr
deriving DecidableEq, Repr

/-- The default permissions object `{"allow": [], "deny": []}`. -/
def defaultPerms : Json :=
  .obj [("allow", .arr []), ("deny", .arr [])]

/-- The `HashSet` insertion loop shared by `merge_permissions` and the
permissions branch of `merge_full`: fold the source items over the current
string set; a string item not yet present is appended to the set and recorded
(tagged) in `merged_items`; non-string items are skipped. -/
def addStrings (set : List String) (items : List Json) (tag : String) :
    List String × List String :=
  match items with
  | [] => (set, [])
  | it :: rest =>
    match it.asStr with
    | some s =>
      if s ∈ set then addStrings set rest tag
      else
        let r := addStrings (set ++ [s]) rest tag
        (r.1, (tag ++ s) :: r.2)
    | none => addStrings set rest tag

/-- Rebuild one permission list: deduplicate the target's string entries
(dropping non-strings, as `filter_map(as_str)` does), insert the source's
string entries, convert back to a JSON array. -/
def mergeListInto (tgtList : List Json) (srcItems : List Json) (tag : String) :
    List Json × List String :=
  let r := addStrings ((tgtList.filterMap Json.asStr).dedup) srcItems tag
  (r.1.map Json.str, r.2)

/-- Access `target["permissions"][key].as_array_mut()` on an object whose
`permissions` key is present: mirrors `serde_json`'s `IndexMut` (null or
missing inner key yields a non-array, hence the type-mismatch error; a
non-object non-null `permissions` value panics). -/
def getPermArrayKVs (tgt : List (String × Json)) (key : String) :
    Except MergeErr (List Json) :=
  match lookupKey tgt "permissions" with
  | some (.obj pkvs) =>
    match lookupKey pkvs key with
    | some (.arr xs) => .ok xs
    | some _ => .error (.typeMismatch ("Target permissions." ++ key ++ " is not an array"))
    | none => .error (.typeMismatch ("Target permissions." ++ key ++ " is not an array"))
  | some .null => .error (.typeMismatch ("Target permissions." ++ key ++ " is not an array"))
  | some _ => .error (.panic "cannot index into value")
  | none => .error (.panic "no permissions entry")

/-- Write the rebuilt array back through the mutable reference obtained by
`getPermArrayKVs` (only used after it succeeded, so `permissions` is an
object). -/
def setPermArrayKVs (tgt : List (String × Json)) (key : String) (xs : List Json) :
    List (String × Json) :=
  match lookupKey tgt "permissions" with
  | some (.obj pkvs) => setKey tgt "permissions" (.obj (setKey pkvs key (.arr xs)))
  | _ => tgt

/-- One allow/deny merge step: when the source supplies an array for `key`
(`srcList?`), rebuild the target list; otherwise this list is a no-op. -/
def mergePermStep (tgt : List (String × Json)) (srcList? : Option (List Json))
    (key tag : String) : Except MergeErr (List (String × Json) × List String) :=
  match srcList? with
  | some srcItems =>
    match getPermArrayKVs tgt key with
    | .error e => .error e
    | .ok xs =>
      let r := mergeListInto xs srcItems tag
      .ok (setPermArrayKVs tgt key r.1, r.2)
  | none => .ok (tgt, [])

/-- The `target["permissions"] = json!({...})` default insertion performed by
`merge_permissions` when `target.get("permissions")` is `None`.  On an object
this is a map insert; `serde_json` turns a null target into a fresh object and
panics on any other non-object target. -/
def ensurePermissions (target : Json) : Except MergeErr (List (String × Json)) :=
  match target.get "permissions" with
  | some _ =>
    match target with
    | .obj kvs => .ok kvs
    | _ => .error (.panic "unreachable: get succeeded on a non-object")
  | none =>
    match target with
    | .obj kvs => .ok (setKey kvs "permissions" defaultPerms)
    | .null => .ok [("permissions", defaultPerms)]
    | _ => .error (.panic "cannot index into non-object value")

/-- Model of `MergeManager::merge_permissions` (merge.rs lines 59–146), with the
timestamp passed explicitly.  Returns the mutated target together with the
history record. -/
def mergePermissions (target source : Json) (sourceName ts : String) :
    Except MergeErr (Json × MergeHistory) :=
  match ensurePermissions target with
  | .error e => .error e
  | .ok t0 =>
    match mergePermStep t0
        (((source.get "permissions").bind (·.get "allow")).bind Json.asArr) "allow" "allow:" with
    | .error e => .error e
    | .ok (t1, i1) =>
      match mergePermStep t1
          (((source.get "permissions").bind (·.get "deny")).bind Json.asArr) "deny" "deny:" with
      | .error e => .error e
      | .ok (t2, i2) => .ok (Json.obj t2, ⟨sourceName, ts, i1 ++ i2, false⟩)

/-- One iteration of the env-map loop of `merge_full` (merge.rs lines
307–312): copy the source env entry if its key is absent from the (mutating)
target env map, recording `env:<key>`. -/
def envMergeStep (acc : List (String × Json) × List String) (kv : String × Json) :
    List (String × Json) × List String :=
  if containsKey acc.1 kv.1 then acc
  else (acc.1 ++ [kv], acc.2 ++ ["env:" ++ kv.1])

/-- The env-map loop of `merge_full`. -/
def envMergeFold (tenv senv : List (String × Json)) :
    List (String × Json) × List String :=
  senv.foldl envMergeStep (tenv, [])

/-- Processing of one source entry `(k, v)` by the `merge_full` loop
(merge.rs lines 217–324): the `permissions` branch, the `env` branch, and the
copy-if-absent default branch. -/
def mergeFullEntry (tgt : List (String × Json)) (k : String) (v : Json) :
    Except MergeErr (List (String × Json) × List String) :=
  if k = "permissions" then
    let tgtA := if containsKey tgt "permissions" then tgt
                else setKey tgt "permissions" defaultPerms
    match v with
    | .obj srcPerms =>
      match mergePermStep tgtA ((lookupKey srcPerms "allow").bind Json.asArr)
          "allow" "permissions.allow:" with
      | .error e => .error e
      | .ok (t1, i1) =>
        match mergePermStep t1 ((lookupKey srcPerms "deny").bind Json.asArr)
            "deny" "permissions.deny:" with
        | .error e => .error e
        | .ok (t2, i2) => .ok (t2, i1 ++ i2)
    | _ => .ok (tgtA, [])
  else if k = "env" then
    match v with
    | .obj srcEnv =>
      let tgtA := if containsKey tgt "env" then tgt else setKey tgt "env" (.obj [])
      match lookupKey tgtA "env" with
      | some (.obj tenv) =>
        let r := envMergeFold tenv srcEnv
        .ok (setKey tgtA "env" (.obj r.1), r.2)
      | _ => .ok (tgtA, [])
    | _ => .ok (tgt, [])
  else
    if containsKey tgt k then .ok (tgt, [])
    else .ok (setKey tgt k v, [k])

/-- The `merge_full` loop over the source object's entries. -/
def mergeFullFold (tgt : List (String × Json)) :
    List (String × Json) → Except MergeErr (List (String × Json) × List String)
  | [] => .ok (tgt, [])
  | (k, v) :: rest =>
    match mergeFullEntry tgt k v with
    | .error e => .error e
    | .ok (t1, i1) =>
      match mergeFullFold t1 rest with
      | .error e => .error e
      | .ok (t2, i2) => .ok (t2, i1 ++ i2)

/-- Model of `MergeManager::merge_full` (merge.rs lines 206–337).  When the source or
the target is not a JSON object the whole loop is skipped and an empty record
with `full_merge = true` is returned. -/
def mergeFull (target source : Json) (sourceName ts : String) :
    Except MergeErr (Json × MergeHistory) :=
  match source with
  | .obj srcKVs =>
    match target with
    | .obj tgtKVs =>
      match mergeFullFold tgtKVs srcKVs with
      | .error e => .error e
      | .ok (t, items) => .ok (Json.obj t, ⟨sourceName, ts, items, true⟩)
    | _ => .ok (target, ⟨sourceName, ts, [], true⟩)
  | _ => .ok (target, ⟨sourceName, ts, [], true⟩)

/-- Union of the `merged_items` of all history records from `sourceName`
(merge.rs lines 158–162; a `HashSet` in Rust, membership is all that is
used). -/
def itemsFromSource (hist : List MergeHistory) (name : String) : List String :=
  (hist.filter (fun h => h.source = name)).flatMap (·.merged_items)

/-- The `retain` filter applied to a permission list during unmerge: drop
string entries whose tagged form is in `items`, keep everything else. -/
def removeTagged (xs : List Json) (items : List String) (tag : String) : List Json :=
  xs.filter (fun v =>
    match v.asStr with
    | some s => decide (¬ (tag ++ s) ∈ items)
    | none => true)

/-- The `get_mut("permissions") → get_mut(key) → as_array_mut` chain used by
the unmerge operations: apply `f` to the array if the whole chain succeeds,
otherwise leave the target untouched (`get_mut` never inserts). -/
def updatePermList (target : Json) (key : String) (f : List Json → List Json) : Json :=
  match target with
  | .obj kvs =>
    match lookupKey kvs "permissions" with
    | some (.obj pkvs) =>
      match lookupKey pkvs key with
      | some (.arr xs) =>
        .obj (setKey kvs "permissions" (.obj (setKey pkvs key (.arr (f xs)))))
      | _ => target
    | _ => target
  | _ => target

/-- Model of `MergeManager::unmerge_permissions` (merge.rs lines 149–203), with the
history passed in and the rewritten history returned instead of the
load/save file round-trip. -/
def unmergePermissions (target : Json) (hist : List MergeHistory) (name : String) :
    Json × List MergeHistory :=
  let items := itemsFromSource hist name
  let t1 := updatePermList target "allow" (fun xs => removeTagged xs items "allow:")
  let t2 := updatePermList t1 "deny" (fun xs => removeTagged xs items "deny:")
  (t2, hist.filter (fun h => ¬ h.source = name))

/-- Union of the `merged_items` of the full-merge records from `sourceName`
(merge.rs lines 349–353). -/
def fullItems (hist : List MergeHistory) (name : String) : List String :=
  (hist.filter (fun h => h.source = name ∧ h.full_merge)).flatMap (·.merged_items)

/-- Remove an entry from an env object (`Map::remove`). -/
def removeKey (kvs : List (String × Json)) (k : String) : List (String × Json) :=
  kvs.filter (fun kv => ¬ kv.1 = k)

/-- Char-list prefix test (the first argument is the pattern). -/
def charsBegins : List Char → List Char → Bool
  | [], _ => true
  | _ :: _, [] => false
  | p :: ps, c :: cs => p = c && charsBegins ps cs

/-- Model of `str::starts_with` over the character data of the strings (the provenance
tags involved are ASCII, so byte and char indices coincide). -/
def strBegins (s pat : String) : Bool :=
  charsBegins pat.data s.data

/-- Model of the remainder taken after a matched pattern, phrased as "drop the
pattern's length" (only ever used
right after a successful `strBegins` check). -/
def strDropN (s : String) (n : Nat) : String :=
  ⟨s.data.drop n⟩

/-- Strip one permission value from `target.permissions.<key>` by exact value
match (merge.rs lines 379–385). -/
def stripPerm (kvs : List (String × Json)) (key v : String) : List (String × Json) :=
  match lookupKey kvs "permissions" with
  | some (.obj pkvs) =>
    match lookupKey pkvs key with
    | some (.arr xs) =>
      setKey kvs "permissions"
        (.obj (setKey pkvs key (.arr (xs.filter (fun w => ¬ w.asStr = some v)))))
    | _ => kvs
  | _ => kvs

/-- Processing of one provenance item in the `unmerge_full` loop
(merge.rs lines 360–387). -/
def stripItem (kvs : List (String × Json)) (item : String) : List (String × Json) :=
  if strBegins item "env:" then
    let envKey := strDropN item 4
    match lookupKey kvs "env" with
    | some (.obj envKVs) => setKey kvs "env" (.obj (removeKey envKVs envKey))
    | _ => kvs
  else if strBegins item "permissions.allow:" then
    stripPerm kvs "allow" (strDropN item 18)
  else if strBegins item "permissions.deny:" then
    stripPerm kvs "deny" (strDropN item 17)
  else kvs

/-- Model of `MergeManager::unmerge_full` (merge.rs lines 340–394): drop the top-level
keys recorded by full merges from this source, strip the recorded env entries
and permission values, then run the scoped `unmerge_permissions` (which also
rewrites the history). -/
def unmergeFull (target : Json) (hist : List MergeHistory) (name : String) :
    Json × List MergeHistory :=
  let items := fullItems hist name
  let t1 :=
    match target with
    | .obj kvs =>
      Json.obj (items.foldl stripItem (kvs.filter (fun kv => ¬ kv.1 ∈ items)))
    | _ => target
  unmergePermissions t1 hist name

/-- The conflict condition of claim C7 for one permission list `key`: the
source's permissions object supplies `key` as an array, while the target's
permissions object has `key` as a non-array value. -/
def nonArrayConflict (srcPerms pkvs : List (String × Json)) (key : String) : Prop :=
  (∃ sa, (lookupKey srcPerms key).bind Json.asArr = some sa)
  ∧ ∃ v, lookupKey pkvs key = some v ∧ v.asArr = none

/-- Conditions on a (post-merge) document under which re-processing one
source entry of the `merge_full` loop is the identity and records nothing. -/
def entryReady (w : List (String × Json)) (k : String) (v : Json) : Prop :=
  if k = "permissions" then
    containsKey w "permissions" = true
    ∧ (match v with
      | .obj srcPerms =>
        (∀ sa, (lookupKey srcPerms "allow").bind Json.asArr = some sa →
          ∃ pkvs L, lookupKey w "permissions" = some (.obj pkvs)
            ∧ lookupKey pkvs "allow" = some (.arr L)
            ∧ mergeListInto L sa "permissions.allow:" = (L, []))
        ∧ (∀ sd, (lookupKey srcPerms "deny").bind Json.asArr = some sd →
          ∃ pkvs L, lookupKey w "permissions" = some (.obj pkvs)
            ∧ lookupKey pkvs "deny" = some (.arr L)
            ∧ mergeListInto L sd "permissions.deny:" = (L, []))
      | _ => True)
  else if k = "env" then
    match v with
    | .obj senv =>
      (∃ e, lookupKey w "env" = some (.obj e)
        ∧ senv.foldl envMergeStep (e, ([] : List String)) = (e, []))
      ∨ ∃ x, lookupKey w "env" = some x ∧ x.isObj = false
    | _ => True
  else containsKey w k = true

example :
    mergePermissions (.obj [])
      (.obj [("permissions", .obj [("allow", .arr [.str "Bash(ls)"]), ("deny", .arr [])])])
      "teamA" "ts"
    = .ok (.obj [("permissions", .obj [("allow", .arr [.str "Bash(ls)"]), ("deny", .arr [])])],
        ⟨"teamA", "ts", ["allow:Bash(ls)"], false⟩) := by
  rfl

example :
    mergeFull (.obj [("theme", .str "dark")])
      (.obj [("env", .obj [("X", .str "1")]), ("theme", .str "light")]) "s" "ts"
    = .ok (.obj [("theme", .str "dark"), ("env", .obj [("X", .str "1")])],
        ⟨"s", "ts", ["env:X"], true⟩) := by
  rfl

example :
    mergeFull (.obj []) (.obj [("env", .obj [("X", .str "1")])]) "teamA" "ts"
    = .ok (.obj [("env", .obj [("X", .str "1")])], ⟨"teamA", "ts", ["env:X"], true⟩) := by
  rfl

example :
    unmergeFull (.obj [("env", .obj [("X", .str "1")])])
      [⟨"teamA", "ts", ["env:X"], true⟩] "teamA"
    = (.obj [("env", .obj [])], []) := by
  rfl

/-! ### Association-list lemmas -/

theorem lookup_setKey_self (l : List (String × Json)) (k : String) (v : Json) :
    lookupKey (setKey l k v) k = some v := by
  induction l with
  | nil => simp [setKey, lookupKey]
  | cons hd tl ih =>
    obtain ⟨k', v'⟩ := hd
    by_cases h : k' = k
    · simp [setKey, h, lookupKey]
    · simp [setKey, h, lookupKey, ih]

theorem lookup_setKey_ne (l : List (String × Json)) {k k' : String} (v : Json)
    (h : k' ≠ k) : lookupKey (setKey l k v) k' = lookupKey l k' := by
  have hk : ¬ k = k' := fun hh => h hh.symm
  induction l with
  | nil => simp [setKey, lookupKey, hk]
  | cons hd tl ih =>
    obtain ⟨k₀, v₀⟩ := hd
    by_cases h0 : k₀ = k
    · subst h0
      simp [setKey, lookupKey, hk]
    · simp only [setKey, if_neg h0, lookupKey]
      by_cases h1 : k₀ = k'
      · simp [h1]
      · simp [h1, ih]

theorem setKey_of_lookup_eq {l : List (String × Json)} {k : String} {v : Json}
    (h : lookupKey l k = some v) : setKey l k v = l := by
  induction l with
  | nil => simp [lookupKey] at h
  | cons hd tl ih =>
    obtain ⟨k', v'⟩ := hd
    by_cases h0 : k' = k
    · simp only [lookupKey, if_pos h0, Option.some.injEq] at h
      simp [setKey, h0, h]
    · simp only [lookupKey, if_neg h0] at h
      simp [setKey, h0, ih h]

theorem lookup_append_of_none {l₁ : List (String × Json)} (l₂ : List (String × Json))
    {k : String} (h : lookupKey l₁ k = none) :
    lookupKey (l₁ ++ l₂) k = lookupKey l₂ k := by
  induction l₁ with
  | nil => simp
  | cons hd tl ih =>
    obtain ⟨k', v'⟩ := hd
    by_cases h0 : k' = k
    · simp [lookupKey, h0] at h
    · simp only [lookupKey, if_neg h0] at h
      simpa [lookupKey, h0] using ih h

theorem lookup_append_of_some {l₁ : List (String × Json)} (l₂ : List (String × Json))
    {k : String} {v : Json} (h : lookupKey l₁ k = some v) :
    lookupKey (l₁ ++ l₂) k = some v := by
  induction l₁ with
  | nil => simp [lookupKey] at h
  | cons hd tl ih =>
    obtain ⟨k', v'⟩ := hd
    by_cases h0 : k' = k
    · simp only [lookupKey, if_pos h0, Option.some.injEq] at h
      simp [lookupKey, h0, h]
    · simp only [lookupKey, if_neg h0] at h
      simpa [lookupKey, h0] using ih h

theorem setKey_eq_append_of_none {l : List (String × Json)} {k : String}
    (v : Json) (h : lookupKey l k = none) : setKey l k v = l ++ [(k, v)] := by
  induction l with
  | nil => simp [setKey]
  | cons hd tl ih =>
    obtain ⟨k', v'⟩ := hd
    by_cases h0 : k' = k
    · simp [lookupKey, h0] at h
    · simp only [lookupKey, if_neg h0] at h
      simp [setKey, h0, ih h]

theorem lookup_isSome_iff {l : List (String × Json)} {k : String} :
    (lookupKey l k).isSome = true ↔ ∃ v, lookupKey l k = some v := by
  cases h : lookupKey l k <;> simp [h]

/-! ### Lemmas about the shared string-set insertion loop -/

theorem addStrings_fst_mem (set : List String) (items : List Json) (tag x : String) :
    x ∈ (addStrings set items tag).1 ↔ x ∈ set ∨ x ∈ items.filterMap Json.asStr := by
  induction items generalizing set with
  | nil => simp [addStrings]
  | cons it rest ih =>
    cases hs : it.asStr with
    | none => simp [addStrings, hs, ih]
    | some s =>
      have hfm : (it :: rest).filterMap Json.asStr = s :: rest.filterMap Json.asStr := by
        rw [List.filterMap_cons]
        simp [hs]
      by_cases hmem : s ∈ set
      · rw [addStrings]
        simp only [hs, if_pos hmem]
        rw [ih, hfm]
        simp only [List.mem_cons]
        constructor
        · rintro (h | h)
          · exact Or.inl h
          · exact Or.inr (Or.inr h)
        · rintro (h | rfl | h)
          · exact Or.inl h
          · exact Or.inl hmem
          · exact Or.inr h
      · rw [addStrings]
        simp only [hs, if_neg hmem]
        rw [ih, hfm]
        simp [List.mem_append, or_assoc]

theorem addStrings_fst_nodup {set : List String} (items : List Json) (tag : String)
    (h : set.Nodup) : (addStrings set items tag).1.Nodup := by
  induction items generalizing set with
  | nil => simpa [addStrings]
  | cons it rest ih =>
    cases hs : it.asStr with
    | none => simpa [addStrings, hs] using ih h
    | some s =>
      by_cases hmem : s ∈ set
      · rw [addStrings]; simp only [hs, if_pos hmem]; exact ih h
      · rw [addStrings]
        simp only [hs, if_neg hmem]
        exact ih (by simp [List.nodup_append, h, hmem])

theorem addStrings_eq_of_subset {set : List String} {items : List Json} (tag : String)
    (h : ∀ s ∈ items.filterMap Json.asStr, s ∈ set) :
    addStrings set items tag = (set, []) := by
  induction items with
  | nil => simp [addStrings]
  | cons it rest ih =>
    cases hs : it.asStr with
    | none =>
      rw [addStrings]
      simp only [hs]
      exact ih (by intro s hmem; exact h s (by simp [hs, hmem]))
    | some s =>
      have hfm : (it :: rest).filterMap Json.asStr = s :: rest.filterMap Json.asStr := by
        rw [List.filterMap_cons]
        simp [hs]
      have hset : s ∈ set := h s (by rw [hfm]; exact List.mem_cons_self _ _)
      rw [addStrings]
      simp only [hs, if_pos hset]
      exact ih (by
        intro x hmem
        exact h x (by rw [hfm]; exact List.mem_cons_of_mem _ hmem))

theorem addStrings_snd_spec (set : List String) (items : List Json) (tag : String) :
    ∀ it ∈ (addStrings set items tag).2,
      ∃ s, it = tag ++ s ∧ Json.str s ∈ items ∧ s ∉ set := by
  induction items generalizing set with
  | nil => simp [addStrings]
  | cons hd rest ih =>
    cases hs : hd.asStr with
    | none =>
      intro it hmem
      rw [addStrings] at hmem
      simp only [hs] at hmem
      obtain ⟨s, h1, h2, h3⟩ := ih set it hmem
      exact ⟨s, h1, List.mem_cons_of_mem _ h2, h3⟩
    | some s =>
      intro it hmem
      have hd_eq : hd = Json.str s := by cases hd <;> simp_all [Json.asStr]
      by_cases hmem0 : s ∈ set
      · rw [addStrings] at hmem
        simp only [hs, if_pos hmem0] at hmem
        obtain ⟨x, h1, h2, h3⟩ := ih set it hmem
        exact ⟨x, h1, List.mem_cons_of_mem _ h2, h3⟩
      · rw [addStrings] at hmem
        simp only [hs, if_neg hmem0, List.mem_cons] at hmem
        rcases hmem with rfl | hmem
        · refine ⟨s, rfl, ?_, hmem0⟩
          rw [hd_eq]
          exact List.mem_cons_self _ _
        · obtain ⟨x, h1, h2, h3⟩ := ih (set ++ [s]) it hmem
          exact ⟨x, h1, List.mem_cons_of_mem _ h2, fun hx => h3 (by simp [hx])⟩

theorem addStrings_fst_toFinset (set : List String) (items : List Json) (tag : String) :
    (addStrings set items tag).1.toFinset
      = set.toFinset ∪ (items.filterMap Json.asStr).toFinset := by
  ext x
  simp [addStrings_fst_mem]

/-! ### Behaviour of the unmerge update chain -/

theorem updatePermList_id (target : Json) (key : String) (f : List Json → List Json)
    (hf : ∀ xs, f xs = xs) : updatePermList target key f = target := by
  cases target <;> try rfl
  rename_i kvs
  simp only [updatePermList]
  split <;> try rfl
  rename_i pkvs hp
  split <;> try rfl
  rename_i xs ha
  rw [hf, setKey_of_lookup_eq ha, setKey_of_lookup_eq hp]

/-! ### Lemmas about the permission-list merge steps -/

theorem setPermArrayKVs_lookup_ne (tgt : List (String × Json)) (key : String)
    (xs : List Json) {k' : String} (hne : k' ≠ "permissions") :
    lookupKey (setPermArrayKVs tgt key xs) k' = lookupKey tgt k' := by
  unfold setPermArrayKVs
  split
  · exact lookup_setKey_ne _ _ hne
  · rfl

theorem mergePermStep_ok_lookup_ne {tgt t' : List (String × Json)}
    {srcL : Option (List Json)} {key tag : String} {its : List String} {k' : String}
    (h : mergePermStep tgt srcL key tag = .ok (t', its)) (hne : k' ≠ "permissions") :
    lookupKey t' k' = lookupKey tgt k' := by
  cases srcL with
  | none =>
    simp only [mergePermStep, Except.ok.injEq, Prod.mk.injEq] at h
    rw [← h.1]
  | some srcItems =>
    cases hg : getPermArrayKVs tgt key with
    | error e => simp [mergePermStep, hg] at h
    | ok xs =>
      simp only [mergePermStep, hg, Except.ok.injEq, Prod.mk.injEq] at h
      rw [← h.1]
      exact setPermArrayKVs_lookup_ne tgt key _ hne

theorem getPermArrayKVs_non_array {tgt pkvs : List (String × Json)} {key : String} {v : Json}
    (hp : lookupKey tgt "permissions" = some (.obj pkvs))
    (hk : lookupKey pkvs key = some v) (hv : v.asArr = none) :
    getPermArrayKVs tgt key
      = .error (.typeMismatch ("Target permissions." ++ key ++ " is not an array")) := by
  unfold getPermArrayKVs
  simp only [hp]
  rw [hk]
  cases v <;> first | rfl | simp [Json.asArr] at hv

theorem getPermArrayKVs_missing {tgt pkvs : List (String × Json)} {key : String}
    (hp : lookupKey tgt "permissions" = some (.obj pkvs))
    (hk : lookupKey pkvs key = none) :
    getPermArrayKVs tgt key
      = .error (.typeMismatch ("Target permissions." ++ key ++ " is not an array")) := by
  unfold getPermArrayKVs
  simp only [hp]
  rw [hk]

theorem mergePermStep_error_of_non_array {tgt : List (String × Json)}
    (pkvs : List (String × Json))
    {key tag : String} {srcItems : List Json} {v : Json}
    (hp : lookupKey tgt "permissions" = some (.obj pkvs))
    (hk : lookupKey pkvs key = some v) (hv : v.asArr = none) :
    mergePermStep tgt (some srcItems) key tag
      = .error (.typeMismatch ("Target permissions." ++ key ++ " is not an array")) := by
  simp [mergePermStep, getPermArrayKVs_non_array hp hk hv]

theorem mergePermStep_some_ok {tgt pkvs : List (String × Json)} {key tag : String}
    {srcItems xs : List Json}
    (hp : lookupKey tgt "permissions" = some (.obj pkvs))
    (hk : lookupKey pkvs key = some (.arr xs)) :
    mergePermStep tgt (some srcItems) key tag
      = .ok (setKey tgt "permissions"
              (.obj (setKey pkvs key (.arr (mergeListInto xs srcItems tag).1))),
            (mergeListInto xs srcItems tag).2) := by
  simp [mergePermStep, getPermArrayKVs, hp, hk, setPermArrayKVs]

theorem perm_conflict_cases {tgt pkvs srcPerms : List (String × Json)} (tagA tagD : String)
    (hp : lookupKey tgt "permissions" = some (.obj pkvs))
    (hconf : nonArrayConflict srcPerms pkvs "allow" ∨ nonArrayConflict srcPerms pkvs "deny") :
    (∃ msg, mergePermStep tgt ((lookupKey srcPerms "allow").bind Json.asArr) "allow" tagA
        = .error (.typeMismatch msg))
    ∨ ∃ t1 i1 msg,
        mergePermStep tgt ((lookupKey srcPerms "allow").bind Json.asArr) "allow" tagA
          = .ok (t1, i1)
        ∧ mergePermStep t1 ((lookupKey srcPerms "deny").bind Json.asArr) "deny" tagD
            = .error (.typeMismatch msg) := by
  rcases hconf with ⟨⟨sa, hsa⟩, v, hv, hvn⟩ | ⟨⟨sd, hsd⟩, v, hv, hvn⟩
  · left
    rw [hsa]
    exact ⟨_, mergePermStep_error_of_non_array _ hp hv hvn⟩
  · cases hsa : (lookupKey srcPerms "allow").bind Json.asArr with
    | none =>
      right
      refine ⟨tgt, [], "Target permissions.deny is not an array", ?_, ?_⟩
      · simp [mergePermStep]
      · rw [hsd]
        exact mergePermStep_error_of_non_array _ hp hv hvn
    | some sa =>
      cases hk : lookupKey pkvs "allow" with
      | none =>
        left
        refine ⟨"Target permissions.allow is not an array", ?_⟩
        simp [mergePermStep, getPermArrayKVs_missing hp hk]
      | some w =>
        cases hw : w.asArr with
        | none =>
          left
          exact ⟨_, mergePermStep_error_of_non_array _ hp hk hw⟩
        | some xs =>
          have hwarr : w = .arr xs := by
            cases w <;> simp [Json.asArr] at hw
            rw [hw]
          subst hwarr
          right
          refine ⟨_, _, "Target permissions.deny is not an array",
            mergePermStep_some_ok hp hk, ?_⟩
          rw [hsd]
          apply mergePermStep_error_of_non_array
            (setKey pkvs "allow" (.arr (mergeListInto xs sa tagA).1))
            (lookup_setKey_self _ _ _)
          · rw [lookup_setKey_ne _ _ (by decide : ("deny" : String) ≠ "allow")]
            exact hv
          · exact hvn

theorem mergePermStep_ok_inv {tgt t' : List (String × Json)} {srcItems : List Json}
    {key tag : String} {its : List String} {pkvs : List (String × Json)}
    (hp : lookupKey tgt "permissions" = some (.obj pkvs))
    (h : mergePermStep tgt (some srcItems) key tag = .ok (t', its)) :
    ∃ tl, lookupKey pkvs key = some (.arr tl)
      ∧ t' = setKey tgt "permissions"
          (.obj (setKey pkvs key (.arr (mergeListInto tl srcItems tag).1)))
      ∧ its = (mergeListInto tl srcItems tag).2 := by
  cases hl : lookupKey pkvs key with
  | none =>
    rw [show mergePermStep tgt (some srcItems) key tag
        = .error (.typeMismatch ("Target permissions." ++ key ++ " is not an array")) by
      simp [mergePermStep, getPermArrayKVs_missing hp hl]] at h
    cases h
  | some w =>
    cases hw : w.asArr with
    | none =>
      rw [mergePermStep_error_of_non_array _ hp hl hw] at h
      cases h
    | some xs =>
      have hwe : w = .arr xs := by
        cases w <;> simp_all [Json.asArr]
      subst hwe
      rw [mergePermStep_some_ok hp hl] at h
      simp only [Except.ok.injEq, Prod.mk.injEq] at h
      exact ⟨xs, rfl, h.1.symm, h.2.symm⟩

theorem mergePermissions_ok_inv {target source : Json} {name ts : String}
    {tkvs : List (String × Json)} {t' : Json} {rec : MergeHistory}
    (hens : ensurePermissions target = .ok tkvs)
    (hmerge : mergePermissions target source name ts = .ok (t', rec)) :
    ∃ t1 i1 t2 i2,
      mergePermStep tkvs (((source.get "permissions").bind (·.get "allow")).bind Json.asArr)
        "allow" "allow:" = .ok (t1, i1)
      ∧ mergePermStep t1 (((source.get "permissions").bind (·.get "deny")).bind Json.asArr)
        "deny" "deny:" = .ok (t2, i2)
      ∧ t' = .obj t2 ∧ rec = ⟨name, ts, i1 ++ i2, false⟩ := by
  simp only [mergePermissions, hens] at hmerge
  split at hmerge
  · cases hmerge
  · rename_i t1 i1 hA
    split at hmerge
    · cases hmerge
    · rename_i t2 i2 hD
      simp only [Except.ok.injEq, Prod.mk.injEq] at hmerge
      exact ⟨t1, i1, t2, i2, hA, hD, hmerge.1.symm, hmerge.2.symm⟩

/-! ### Set-semantics facts about the rebuilt permission lists -/

theorem filterMap_asStr_map_str {xs : List Json} (h : ∀ v ∈ xs, ∃ s, v = Json.str s) :
    (xs.filterMap Json.asStr).map Json.str = xs := by
  induction xs with
  | nil => simp
  | cons hd tl ih =>
    obtain ⟨s, rfl⟩ := h hd (List.mem_cons_self _ _)
    rw [List.filterMap_cons]
    simp only [Json.asStr, List.map_cons]
    rw [ih (fun v hv => h v (List.mem_cons_of_mem _ hv))]

theorem dedup_toFinset_eq {α : Type} [DecidableEq α] (l : List α) :
    l.dedup.toFinset = l.toFinset := by
  ext x
  simp [List.mem_dedup]

theorem mergeListInto_strs (tl srcItems : List Json) (tag : String) :
    ∃ strs : List String,
      (mergeListInto tl srcItems tag).1 = strs.map Json.str
      ∧ strs.Nodup
      ∧ strs.toFinset
          = (tl.filterMap Json.asStr).toFinset ∪ (srcItems.filterMap Json.asStr).toFinset
      ∧ (mergeListInto tl srcItems tag).1.length
          = ((tl.filterMap Json.asStr).toFinset
              ∪ (srcItems.filterMap Json.asStr).toFinset).card := by
  refine ⟨(addStrings (tl.filterMap Json.asStr).dedup srcItems tag).1, rfl, ?_, ?_, ?_⟩
  · exact addStrings_fst_nodup _ _ (List.nodup_dedup _)
  · rw [addStrings_fst_toFinset]
    congr 1
    exact dedup_toFinset_eq _
  · have hnd := @addStrings_fst_nodup ((tl.filterMap Json.asStr).dedup) srcItems tag
      (List.nodup_dedup _)
    have hlen : (mergeListInto tl srcItems tag).1.length
        = (addStrings (tl.filterMap Json.asStr).dedup srcItems tag).1.length := by
      unfold mergeListInto
      simp
    rw [hlen, ← List.toFinset_card_of_nodup hnd, addStrings_fst_toFinset,
      dedup_toFinset_eq]

theorem mergeListInto_snd_spec (tl srcItems : List Json) (tag : String) :
    ∀ it ∈ (mergeListInto tl srcItems tag).2,
      ∃ s, it = tag ++ s ∧ Json.str s ∈ srcItems := by
  intro it hmem
  obtain ⟨s, h1, h2, h3⟩ := addStrings_snd_spec _ srcItems tag it hmem
  exact ⟨s, h1, h2⟩

/-! ### Lemmas about the merge-full loop -/

theorem mergeFullEntry_perm_obj (tgt srcPerms : List (String × Json))
    (tgtA : List (String × Json))
    (hA : tgtA = if containsKey tgt "permissions" then tgt
                 else setKey tgt "permissions" defaultPerms) :
    mergeFullEntry tgt "permissions" (.obj srcPerms)
      = match mergePermStep tgtA ((lookupKey srcPerms "allow").bind Json.asArr)
            "allow" "permissions.allow:" with
        | .error e => .error e
        | .ok (t1, i1) =>
          match mergePermStep t1 ((lookupKey srcPerms "deny").bind Json.asArr)
              "deny" "permissions.deny:" with
          | .error e => .error e
          | .ok (t2, i2) => .ok (t2, i1 ++ i2) := by
  subst hA
  rfl

theorem mergeFullEntry_perm_non_obj (tgt : List (String × Json)) (v : Json)
    (hv : v.isObj = false) :
    mergeFullEntry tgt "permissions" v
      = .ok (if containsKey tgt "permissions" then tgt
             else setKey tgt "permissions" defaultPerms, []) := by
  cases v <;> first | rfl | simp [Json.isObj] at hv

theorem mergeFullEntry_env_obj (tgt srcEnv : List (String × Json))
    (tgtA : List (String × Json))
    (hA : tgtA = if containsKey tgt "env" then tgt else setKey tgt "env" (.obj [])) :
    mergeFullEntry tgt "env" (.obj srcEnv)
      = match lookupKey tgtA "env" with
        | some (.obj tenv) =>
          .ok (setKey tgtA "env" (.obj (envMergeFold tenv srcEnv).1),
              (envMergeFold tenv srcEnv).2)
        | _ => .ok (tgtA, []) := by
  subst hA
  rfl

theorem mergeFullEntry_env_non_obj (tgt : List (String × Json)) (v : Json)
    (hv : v.isObj = false) :
    mergeFullEntry tgt "env" v = .ok (tgt, []) := by
  cases v <;> first | rfl | simp [Json.isObj] at hv

theorem mergeFullEntry_other (tgt : List (String × Json)) (k : String) (v : Json)
    (h1 : k ≠ "permissions") (h2 : k ≠ "env") :
    mergeFullEntry tgt k v
      = if containsKey tgt k then .ok (tgt, []) else .ok (setKey tgt k v, [k]) := by
  unfold mergeFullEntry
  rw [if_neg h1, if_neg h2]

theorem mergeFullEntry_ok_lookup_ne {tgt t' : List (String × Json)} {k : String} {v : Json}
    {its : List String} {k' : String}
    (h : mergeFullEntry tgt k v = .ok (t', its)) (hne : k' ≠ k) :
    lookupKey t' k' = lookupKey tgt k' := by
  by_cases hperm : k = "permissions"
  · subst hperm
    have hA : lookupKey (if containsKey tgt "permissions" then tgt
        else setKey tgt "permissions" defaultPerms) k' = lookupKey tgt k' := by
      split
      · rfl
      · exact lookup_setKey_ne _ _ hne
    cases v
    all_goals try
      (rw [mergeFullEntry_perm_non_obj tgt _ (by rfl)] at h
       simp only [Except.ok.injEq, Prod.mk.injEq] at h
       rw [← h.1]
       exact hA)
    rename_i srcPerms
    rw [mergeFullEntry_perm_obj tgt srcPerms _ rfl] at h
    split at h
    · cases h
    · rename_i t1 i1 h1
      split at h
      · cases h
      · rename_i t2 i2 h2
        simp only [Except.ok.injEq, Prod.mk.injEq] at h
        rw [← h.1]
        rw [mergePermStep_ok_lookup_ne h2 hne, mergePermStep_ok_lookup_ne h1 hne]
        exact hA
  · by_cases henv : k = "env"
    · subst henv
      have hA : lookupKey (if containsKey tgt "env" then tgt
          else setKey tgt "env" (.obj [])) k' = lookupKey tgt k' := by
        split
        · rfl
        · exact lookup_setKey_ne _ _ hne
      cases v
      all_goals try
        (rw [mergeFullEntry_env_non_obj tgt _ (by rfl)] at h
         simp only [Except.ok.injEq, Prod.mk.injEq] at h
         rw [← h.1])
      rename_i srcEnv
      rw [mergeFullEntry_env_obj tgt srcEnv _ rfl] at h
      split at h
      · simp only [Except.ok.injEq, Prod.mk.injEq] at h
        rw [← h.1, lookup_setKey_ne _ _ hne]
        exact hA
      · simp only [Except.ok.injEq, Prod.mk.injEq] at h
        rw [← h.1]
        exact hA
    · rw [mergeFullEntry_other tgt k v hperm henv] at h
      split at h
      · simp only [Except.ok.injEq, Prod.mk.injEq] at h
        rw [← h.1]
      · simp only [Except.ok.injEq, Prod.mk.injEq] at h
        rw [← h.1]
        exact lookup_setKey_ne _ _ hne

theorem mergeFullEntry_ne_perm_ok (tgt : List (String × Json)) {k : String} (v : Json)
    (hk : k ≠ "permissions") :
    ∃ t' its, mergeFullEntry tgt k v = .ok (t', its) := by
  by_cases he : k = "env"
  · subst he
    cases v
    all_goals try exact ⟨_, _, mergeFullEntry_env_non_obj tgt _ (by rfl)⟩
    rename_i srcEnv
    rw [mergeFullEntry_env_obj tgt srcEnv _ rfl]
    split
    · exact ⟨_, _, rfl⟩
    · exact ⟨_, _, rfl⟩
  · rw [mergeFullEntry_other tgt k v hk he]
    split
    · exact ⟨_, _, rfl⟩
    · exact ⟨_, _, rfl⟩

theorem mergeFullFold_conflict_error :
    ∀ (srcKVs tgt pkvs srcPerms : List (String × Json)),
      lookupKey srcKVs "permissions" = some (.obj srcPerms) →
      lookupKey tgt "permissions" = some (.obj pkvs) →
      (nonArrayConflict srcPerms pkvs "allow" ∨ nonArrayConflict srcPerms pkvs "deny") →
      ∃ msg, mergeFullFold tgt srcKVs = .error (.typeMismatch msg) := by
  intro srcKVs
  induction srcKVs with
  | nil =>
    intro tgt pkvs srcPerms hsp
    simp [lookupKey] at hsp
  | cons hd rest ih =>
    obtain ⟨k, w⟩ := hd
    intro tgt pkvs srcPerms hsp hp hconf
    by_cases hk : k = "permissions"
    · subst hk
      have hw : w = .obj srcPerms := by simpa [lookupKey] using hsp
      subst hw
      have hcontains : containsKey tgt "permissions" = true := by
        simp [containsKey, hp]
      rcases perm_conflict_cases "permissions.allow:" "permissions.deny:"
          hp hconf with ⟨msg, herr⟩ | ⟨t1, i1, msg, hok, herr⟩
      · refine ⟨msg, ?_⟩
        simp only [mergeFullFold, mergeFullEntry, if_pos rfl, hcontains, if_true, herr]
      · refine ⟨msg, ?_⟩
        simp only [mergeFullFold, mergeFullEntry, if_pos rfl, hcontains, if_true, hok, herr]
    · have hsp' : lookupKey rest "permissions" = some (.obj srcPerms) := by
        simpa [lookupKey, hk] using hsp
      obtain ⟨t1, i1, hentry⟩ := mergeFullEntry_ne_perm_ok tgt w hk
      have hp1 : lookupKey t1 "permissions" = some (.obj pkvs) := by
        rw [mergeFullEntry_ok_lookup_ne hentry (fun hh => hk hh.symm)]
        exact hp
      obtain ⟨msg, hrest⟩ := ih t1 pkvs srcPerms hsp' hp1 hconf
      refine ⟨msg, ?_⟩
      simp only [mergeFullFold, hentry, hrest]

/-! ### Claim theorems -/

/-- C1: for target `{}` and source
`{"permissions":{"allow":["Bash(ls)"],"deny":[]}}` with source name `teamA`,
`merge_permissions` produces target
`{"permissions":{"allow":["Bash(ls)"],"deny":[]}}` and a record with
`merged_items = ["allow:Bash(ls)"]` and `full_merge = false` (for any
timestamp). -/
theorem c1_merge_permissions_scenario (ts : String) :
    mergePermissions (.obj [])
      (.obj [("permissions", .obj [("allow", .arr [.str "Bash(ls)"]), ("deny", .arr [])])])
      "teamA" ts
    = .ok (.obj [("permissions", .obj [("allow", .arr [.str "Bash(ls)"]), ("deny", .arr [])])],
        ⟨"teamA", ts, ["allow:Bash(ls)"], false⟩) := by
  rfl

/-- C10: when the target value is not a JSON object, `merge_full` succeeds
without error, leaves the target unchanged, and returns a record with empty
`merged_items` and `full_merge = true`. -/
theorem c10_merge_full_non_object_target (target source : Json) (name ts : String)
    (h : target.isObj = false) :
    mergeFull target source name ts = .ok (target, ⟨name, ts, [], true⟩) := by
  cases source <;> cases target <;> simp_all [mergeFull, Json.isObj]

/-- Witness for C10 at target `5` and source `{"a":1}`. -/
theorem c10_witness :
    mergeFull (.num 5) (.obj [("a", .num 1)]) "s" "t" = .ok (.num 5, ⟨"s", "t", [], true⟩) :=
  c10_merge_full_non_object_target (.num 5) (.obj [("a", .num 1)]) "s" "t" rfl

/-- C6: `unmerge_permissions` rewrites the history to exactly the records
whose source differs from `source_name`: every record from that source is
dropped (regardless of its `full_merge` flag) and all other records are kept
unchanged and in order (the result is the order-preserving filter of the
input history). -/
theorem c6_unmerge_history_filter (target : Json) (hist : List MergeHistory)
    (name : String) :
    (unmergePermissions target hist name).2 = hist.filter (fun r => ¬ r.source = name)
    ∧ ∀ r ∈ hist,
        (r.source = name → r ∉ (unmergePermissions target hist name).2)
        ∧ (¬ r.source = name → r ∈ (unmergePermissions target hist name).2) := by
  refine ⟨rfl, ?_⟩
  intro r hr
  constructor
  · intro hsrc hmem
    rw [(rfl : (unmergePermissions target hist name).2
      = hist.filter (fun r => ¬ r.source = name))] at hmem
    have := (List.mem_filter.mp hmem).2
    simp [hsrc] at this
  · intro hsrc
    exact List.mem_filter.mpr ⟨hr, by simpa using hsrc⟩

/-- Witness for C6: a full-merge record from the unmerged source is dropped,
a record from another source is kept. -/
theorem c6_witness :
    ((unmergePermissions (.obj []) [⟨"a", "t1", ["k"], true⟩, ⟨"b", "t2", [], false⟩] "a").2
        = [⟨"b", "t2", [], false⟩])
    ∧ (⟨"a", "t1", ["k"], true⟩ : MergeHistory)
        ∉ (unmergePermissions (.obj []) [⟨"a", "t1", ["k"], true⟩, ⟨"b", "t2", [], false⟩] "a").2 := by
  have h := c6_unmerge_history_filter (.obj [])
    [⟨"a", "t1", ["k"], true⟩, ⟨"b", "t2", [], false⟩] "a"
  refine ⟨by rw [h.1]; rfl, ?_⟩
  exact (h.2 ⟨"a", "t1", ["k"], true⟩ (List.mem_cons_self _ _)).1 rfl

/-- C8: unmerging a source with no matching history records is a no-op, not an
error: the target document (and the history) are returned unchanged. -/
theorem c8_unmerge_unknown_source_noop (target : Json) (hist : List MergeHistory)
    (name : String) (h : ∀ r ∈ hist, ¬ r.source = name) :
    unmergePermissions target hist name = (target, hist) := by
  have hfil : hist.filter (fun r => r.source = name) = [] := by
    rw [List.filter_eq_nil_iff]
    intro r hr
    simpa using h r hr
  have hitems : itemsFromSource hist name = [] := by
    simp [itemsFromSource, hfil]
  have hrem : ∀ xs tag, removeTagged xs ([] : List String) tag = xs := by
    intro xs tag
    apply List.filter_eq_self.mpr
    intro v hv
    cases hvs : v.asStr <;> simp [hvs]
  have hfil2 : hist.filter (fun r => ¬ r.source = name) = hist := by
    rw [List.filter_eq_self]
    intro r hr
    simpa using h r hr
  simp only [unmergePermissions, hitems, hrem, hfil2]
  rw [updatePermList_id _ _ _ (fun xs => rfl), updatePermList_id _ _ _ (fun xs => rfl)]

/-- Witness for C8: history holds only records from source `b`; unmerging
source `a` changes nothing. -/
theorem c8_witness :
    unmergePermissions (.obj [("permissions", .obj [("allow", .arr [.str "x"]), ("deny", .arr [])])])
      [⟨"b", "t", ["allow:x"], false⟩] "a"
    = (.obj [("permissions", .obj [("allow", .arr [.str "x"]), ("deny", .arr [])])],
        [⟨"b", "t", ["allow:x"], false⟩]) := by
  apply c8_unmerge_unknown_source_noop
  intro r hr
  have : r = ⟨"b", "t", ["allow:x"], false⟩ := by simpa using hr
  subst this
  simp

/-- C7 counterexample: the target's `permissions.allow` is the number `5`
(exists but is not an array), yet `merge_permissions` with a source that
supplies no permission arrays succeeds instead of failing. -/
theorem c7_counterexample :
    mergePermissions
      (.obj [("permissions", .obj [("allow", .num 5), ("deny", .arr [])])])
      (.obj []) "s" "ts"
    = .ok (.obj [("permissions", .obj [("allow", .num 5), ("deny", .arr [])])],
        ⟨"s", "ts", [], false⟩) := by
  rfl

/-- C7 (amended): whenever the source supplies `permissions.allow`
(respectively `permissions.deny`) as an array and the target's corresponding
`permissions` entry exists but is not an array, `merge_permissions` — and the
permissions branch of `merge_full` — fails with a type-mismatch error.
Without the source-side condition the branch is skipped and no error is
raised. -/
theorem c7_type_mismatch_on_non_array :
    (∀ (source : Json) (name ts : String) (tkvs pkvs srcPerms : List (String × Json)),
      lookupKey tkvs "permissions" = some (.obj pkvs) →
      source.get "permissions" = some (.obj srcPerms) →
      (nonArrayConflict srcPerms pkvs "allow" ∨ nonArrayConflict srcPerms pkvs "deny") →
      ∃ msg, mergePermissions (.obj tkvs) source name ts = .error (.typeMismatch msg))
    ∧ (∀ (tgtKVs srcKVs pkvs srcPerms : List (String × Json)) (name ts : String),
      lookupKey tgtKVs "permissions" = some (.obj pkvs) →
      lookupKey srcKVs "permissions" = some (.obj srcPerms) →
      (nonArrayConflict srcPerms pkvs "allow" ∨ nonArrayConflict srcPerms pkvs "deny") →
      ∃ msg, mergeFull (.obj tgtKVs) (.obj srcKVs) name ts = .error (.typeMismatch msg)) := by
  constructor
  · intro source name ts tkvs pkvs srcPerms hp hsp hconf
    have hens : ensurePermissions (.obj tkvs) = .ok tkvs := by
      simp [ensurePermissions, Json.get, hp]
    have hsrc : ∀ key : String,
        ((source.get "permissions").bind (·.get key)).bind Json.asArr
          = (lookupKey srcPerms key).bind Json.asArr := by
      intro key
      rw [hsp]
      rfl
    rcases perm_conflict_cases "allow:" "deny:" hp hconf with
        ⟨msg, herr⟩ | ⟨t1, i1, msg, hok, herr⟩
    · exact ⟨msg, by simp only [mergePermissions, hens, hsrc, herr]⟩
    · exact ⟨msg, by simp only [mergePermissions, hens, hsrc, hok, herr]⟩
  · intro tgtKVs srcKVs pkvs srcPerms name ts hp hsp hconf
    obtain ⟨msg, hfold⟩ := mergeFullFold_conflict_error srcKVs tgtKVs pkvs srcPerms hsp hp hconf
    exact ⟨msg, by simp only [mergeFull, hfold]⟩

/-- Witness for C7's amended theorem: target allow is `5`, source supplies an
allow array, and the scoped merge fails with a type mismatch. -/
theorem c7_witness :
    ∃ msg, mergePermissions
      (.obj [("permissions", .obj [("allow", .num 5), ("deny", .arr [])])])
      (.obj [("permissions", .obj [("allow", .arr [.str "a"]), ("deny", .arr [])])])
      "s" "ts"
      = .error (.typeMismatch msg) := by
  apply c7_type_mismatch_on_non_array.1
    (.obj [("permissions", .obj [("allow", .arr [.str "a"]), ("deny", .arr [])])]) "s" "ts"
    [("permissions", .obj [("allow", .num 5), ("deny", .arr [])])]
    [("allow", .num 5), ("deny", .arr [])]
    [("allow", .arr [.str "a"]), ("deny", .arr [])] rfl rfl
  left
  exact ⟨⟨[.str "a"], rfl⟩, .num 5, rfl, rfl⟩

/-- C2 counterexample: target allow list `["a","a"]` holds only strings, the
source supplies no permission arrays, and `merge_permissions` keeps the
duplicate: the resulting allow list is `["a","a"]`, which does not contain
each distinct string exactly once and whose length 2 differs from the size 1
of the union of pre-merge target entries and (empty) source entries. -/
theorem c2_counterexample :
    mergePermissions
      (.obj [("permissions", .obj [("allow", .arr [.str "a", .str "a"]), ("deny", .arr [])])])
      (.obj []) "s" "ts"
    = .ok (.obj [("permissions", .obj [("allow", .arr [.str "a", .str "a"]), ("deny", .arr [])])],
        ⟨"s", "ts", [], false⟩)
    ∧ ¬ ([Json.str "a", Json.str "a"] : List Json).Nodup := by
  exact ⟨rfl, by simp⟩

theorem mergeListInto_mem_fst (tl srcItems : List Json) (tag : String) (v : Json) :
    v ∈ (mergeListInto tl srcItems tag).1
      ↔ ∃ s, v = Json.str s
          ∧ (s ∈ tl.filterMap Json.asStr ∨ s ∈ srcItems.filterMap Json.asStr) := by
  unfold mergeListInto
  simp only [List.mem_map]
  constructor
  · rintro ⟨s, hs, rfl⟩
    refine ⟨s, rfl, ?_⟩
    have := (addStrings_fst_mem _ srcItems tag s).mp hs
    simpa [List.mem_dedup] using this
  · rintro ⟨s, rfl, hmem⟩
    refine ⟨s, ?_, rfl⟩
    apply (addStrings_fst_mem _ srcItems tag s).mpr
    simpa [List.mem_dedup] using hmem

theorem mergePermissions_key_result
    {target source : Json} {name ts : String} {t' : Json} {rec : MergeHistory}
    {tkvs pkvs : List (String × Json)}
    (hmerge : mergePermissions target source name ts = .ok (t', rec))
    (hens : ensurePermissions target = .ok tkvs)
    (hperm : lookupKey tkvs "permissions" = some (.obj pkvs)) :
    ∀ key tag, (key = "allow" ∧ tag = "allow:") ∨ (key = "deny" ∧ tag = "deny:") →
      (∀ srcItems,
        ((source.get "permissions").bind (·.get key)).bind Json.asArr = some srcItems →
        ∃ pkvs2 tl,
          lookupKey pkvs key = some (.arr tl)
          ∧ t'.get "permissions" = some (.obj pkvs2)
          ∧ lookupKey pkvs2 key = some (.arr (mergeListInto tl srcItems tag).1))
      ∧ (((source.get "permissions").bind (·.get key)).bind Json.asArr = none →
        ∃ pkvs2, t'.get "permissions" = some (.obj pkvs2)
          ∧ lookupKey pkvs2 key = lookupKey pkvs key) := by
  intro key tag hkt
  obtain ⟨t1, i1, t2, i2, hA, hD, ht', hrec⟩ := mergePermissions_ok_inv hens hmerge
  subst ht'
  constructor
  · intro srcItems hsrc
    rcases hkt with ⟨rfl, rfl⟩ | ⟨rfl, rfl⟩
    · rw [hsrc] at hA
      obtain ⟨tl, hlA, ht1, hi1⟩ := mergePermStep_ok_inv hperm hA
      subst ht1
      have hp1 := lookup_setKey_self tkvs "permissions"
        (.obj (setKey pkvs "allow" (.arr (mergeListInto tl srcItems "allow:").1)))
      cases hsD : ((source.get "permissions").bind (·.get "deny")).bind Json.asArr with
      | none =>
        rw [hsD] at hD
        simp only [mergePermStep, Except.ok.injEq, Prod.mk.injEq] at hD
        refine ⟨setKey pkvs "allow" (.arr (mergeListInto tl srcItems "allow:").1), tl,
          hlA, ?_, ?_⟩
        · show lookupKey t2 "permissions" = _
          rw [← hD.1]
          exact hp1
        · exact lookup_setKey_self _ _ _
      | some sd =>
        rw [hsD] at hD
        obtain ⟨dl, hdl, ht2, hi2⟩ := mergePermStep_ok_inv hp1 hD
        subst ht2
        refine ⟨setKey (setKey pkvs "allow" (.arr (mergeListInto tl srcItems "allow:").1))
          "deny" (.arr (mergeListInto dl sd "deny:").1), tl, hlA, ?_, ?_⟩
        · exact lookup_setKey_self _ _ _
        · rw [lookup_setKey_ne _ _ (by decide : ("allow" : String) ≠ "deny")]
          exact lookup_setKey_self _ _ _
    · rw [hsrc] at hD
      cases hsA : ((source.get "permissions").bind (·.get "allow")).bind Json.asArr with
      | none =>
        rw [hsA] at hA
        simp only [mergePermStep, Except.ok.injEq, Prod.mk.injEq] at hA
        have hp1 : lookupKey t1 "permissions" = some (.obj pkvs) := by
          rw [← hA.1]
          exact hperm
        obtain ⟨dl, hdl, ht2, hi2⟩ := mergePermStep_ok_inv hp1 hD
        subst ht2
        refine ⟨setKey pkvs "deny" (.arr (mergeListInto dl srcItems "deny:").1), dl,
          hdl, ?_, ?_⟩
        · rw [← hA.1] at hp1 ⊢
          exact lookup_setKey_self _ _ _
        · exact lookup_setKey_self _ _ _
      | some sa =>
        rw [hsA] at hA
        obtain ⟨tl, hlA, ht1, hi1⟩ := mergePermStep_ok_inv hperm hA
        subst ht1
        have hp1 := lookup_setKey_self tkvs "permissions"
          (.obj (setKey pkvs "allow" (.arr (mergeListInto tl sa "allow:").1)))
        obtain ⟨dl, hdl, ht2, hi2⟩ := mergePermStep_ok_inv hp1 hD
        subst ht2
        have hdl0 : lookupKey pkvs "deny" = some (.arr dl) := by
          rw [← hdl]
          exact (lookup_setKey_ne _ _ (by decide : ("deny" : String) ≠ "allow")).symm
        refine ⟨setKey (setKey pkvs "allow" (.arr (mergeListInto tl sa "allow:").1))
          "deny" (.arr (mergeListInto dl srcItems "deny:").1), dl, hdl0, ?_, ?_⟩
        · exact lookup_setKey_self _ _ _
        · exact lookup_setKey_self _ _ _
  · intro hnone
    rcases hkt with ⟨rfl, rfl⟩ | ⟨rfl, rfl⟩
    · rw [hnone] at hA
      simp only [mergePermStep, Except.ok.injEq, Prod.mk.injEq] at hA
      cases hsD : ((source.get "permissions").bind (·.get "deny")).bind Json.asArr with
      | none =>
        rw [hsD] at hD
        simp only [mergePermStep, Except.ok.injEq, Prod.mk.injEq] at hD
        refine ⟨pkvs, ?_, rfl⟩
        show lookupKey t2 "permissions" = _
        rw [← hD.1, ← hA.1]
        exact hperm
      | some sd =>
        rw [hsD] at hD
        have hp1 : lookupKey t1 "permissions" = some (.obj pkvs) := by
          rw [← hA.1]
          exact hperm
        obtain ⟨dl, hdl, ht2, hi2⟩ := mergePermStep_ok_inv hp1 hD
        subst ht2
        refine ⟨setKey pkvs "deny" (.arr (mergeListInto dl sd "deny:").1), ?_, ?_⟩
        · exact lookup_setKey_self _ _ _
        · exact lookup_setKey_ne _ _ (by decide : ("allow" : String) ≠ "deny")
    · rw [hnone] at hD
      simp only [mergePermStep, Except.ok.injEq, Prod.mk.injEq] at hD
      cases hsA : ((source.get "permissions").bind (·.get "allow")).bind Json.asArr with
      | none =>
        rw [hsA] at hA
        simp only [mergePermStep, Except.ok.injEq, Prod.mk.injEq] at hA
        refine ⟨pkvs, ?_, rfl⟩
        show lookupKey t2 "permissions" = _
        rw [← hD.1, ← hA.1]
        exact hperm
      | some sa =>
        rw [hsA] at hA
        obtain ⟨tl, hlA, ht1, hi1⟩ := mergePermStep_ok_inv hperm hA
        subst ht1
        refine ⟨setKey pkvs "allow" (.arr (mergeListInto tl sa "allow:").1), ?_, ?_⟩
        · show lookupKey t2 "permissions" = _
          rw [← hD.1]
          exact lookup_setKey_self _ _ _
        · exact lookup_setKey_ne _ _ (by decide : ("deny" : String) ≠ "allow")

theorem mergePermStep_items {tgt t' : List (String × Json)} {src : List Json}
    {key tag : String} {its : List String}
    (h : mergePermStep tgt (some src) key tag = .ok (t', its)) :
    ∀ it ∈ its, ∃ s, it = tag ++ s ∧ Json.str s ∈ src := by
  cases hg : getPermArrayKVs tgt key with
  | error e => simp [mergePermStep, hg] at h
  | ok xs =>
    simp only [mergePermStep, hg, Except.ok.injEq, Prod.mk.injEq] at h
    intro it hmem
    rw [← h.2] at hmem
    exact mergeListInto_snd_spec xs src tag it hmem

theorem mergePermissions_items_prov
    {target source : Json} {name ts : String} {t' : Json} {rec : MergeHistory}
    {tkvs : List (String × Json)}
    (hmerge : mergePermissions target source name ts = .ok (t', rec))
    (hens : ensurePermissions target = .ok tkvs) :
    ∀ it ∈ rec.merged_items, ∃ s,
      (it = "allow:" ++ s ∧ ∃ srcA,
        ((source.get "permissions").bind (·.get "allow")).bind Json.asArr = some srcA
        ∧ Json.str s ∈ srcA)
      ∨ (it = "deny:" ++ s ∧ ∃ srcD,
        ((source.get "permissions").bind (·.get "deny")).bind Json.asArr = some srcD
        ∧ Json.str s ∈ srcD) := by
  obtain ⟨t1, i1, t2, i2, hA, hD, ht', hrec⟩ := mergePermissions_ok_inv hens hmerge
  subst hrec
  intro it hmem
  have hmem' : it ∈ i1 ++ i2 := hmem
  rcases List.mem_append.mp hmem' with h1 | h2
  · cases hsA : ((source.get "permissions").bind (·.get "allow")).bind Json.asArr with
    | none =>
      rw [hsA] at hA
      simp only [mergePermStep, Except.ok.injEq, Prod.mk.injEq] at hA
      rw [← hA.2] at h1
      simp at h1
    | some sa =>
      rw [hsA] at hA
      obtain ⟨s, hs1, hs2⟩ := mergePermStep_items hA it h1
      exact ⟨s, Or.inl ⟨hs1, sa, rfl, hs2⟩⟩
  · cases hsD : ((source.get "permissions").bind (·.get "deny")).bind Json.asArr with
    | none =>
      rw [hsD] at hD
      simp only [mergePermStep, Except.ok.injEq, Prod.mk.injEq] at hD
      rw [← hD.2] at h2
      simp at h2
    | some sd =>
      rw [hsD] at hD
      obtain ⟨s, hs1, hs2⟩ := mergePermStep_items hD it h2
      exact ⟨s, Or.inr ⟨hs1, sd, rfl, hs2⟩⟩

/-- C2 (amended): under the claim's typing hypothesis (permission lists hold
only strings), for each of `allow`/`deny` FOR WHICH THE SOURCE SUPPLIES AN
ARRAY, the post-merge list contains each distinct string exactly once and its
length is the size of the union of the pre-merge target entries and the
source entries; a list for which the source supplies no array is left
unchanged (so, as `c2_counterexample` shows, pre-existing duplicates in it
survive, refuting the claim as stated). -/
theorem c2_set_union_semantics
    (target source : Json) (name ts : String) (t' : Json) (rec : MergeHistory)
    (tkvs pkvs : List (String × Json))
    (hmerge : mergePermissions target source name ts = .ok (t', rec))
    (hens : ensurePermissions target = .ok tkvs)
    (hperm : lookupKey tkvs "permissions" = some (.obj pkvs)) :
    ∀ key tag, (key = "allow" ∧ tag = "allow:") ∨ (key = "deny" ∧ tag = "deny:") →
      (∀ srcItems,
        ((source.get "permissions").bind (·.get key)).bind Json.asArr = some srcItems →
        ∀ tl, lookupKey pkvs key = some (.arr tl) →
        (∀ v ∈ tl, ∃ s, v = Json.str s) →
        (∀ v ∈ srcItems, ∃ s, v = Json.str s) →
        ∃ (pkvs2 : List (String × Json)) (strs : List String),
          t'.get "permissions" = some (.obj pkvs2)
          ∧ lookupKey pkvs2 key = some (.arr (strs.map Json.str))
          ∧ (strs.map Json.str).Nodup
          ∧ strs.toFinset
              = (tl.filterMap Json.asStr).toFinset ∪ (srcItems.filterMap Json.asStr).toFinset
          ∧ (strs.map Json.str).length
              = ((tl.filterMap Json.asStr).toFinset
                  ∪ (srcItems.filterMap Json.asStr).toFinset).card)
      ∧ (((source.get "permissions").bind (·.get key)).bind Json.asArr = none →
          ∃ pkvs2, t'.get "permissions" = some (.obj pkvs2)
            ∧ lookupKey pkvs2 key = lookupKey pkvs key) := by
  intro key tag hkt
  obtain ⟨hsome, hnone⟩ := mergePermissions_key_result hmerge hens hperm key tag hkt
  refine ⟨?_, hnone⟩
  intro srcItems hsrc tl htl hstr1 hstr2
  obtain ⟨pkvs2, tl', htl', hget, hlook⟩ := hsome srcItems hsrc
  rw [htl] at htl'
  obtain rfl : tl = tl' := by simpa using htl'
  obtain ⟨strs, hmap, hnd, hfin, hlen⟩ := mergeListInto_strs tl srcItems tag
  refine ⟨pkvs2, strs, hget, ?_, ?_, hfin, ?_⟩
  · rw [← hmap]
    exact hlook
  · exact List.Nodup.map (fun a b h => by injection h) hnd
  · rw [← hmap]
    exact hlen

/-- Witness for C2's amended theorem at target allow `["a"]` and source allow
`["a","b"]`. -/
theorem c2_witness :
    ∃ (pkvs2 : List (String × Json)) (strs : List String),
      (Json.obj [("permissions",
          .obj [("allow", .arr [.str "a", .str "b"]), ("deny", .arr [])])]).get "permissions"
        = some (.obj pkvs2)
      ∧ lookupKey pkvs2 "allow" = some (.arr (strs.map Json.str))
      ∧ (strs.map Json.str).Nodup
      ∧ strs.toFinset
          = (([Json.str "a"] : List Json).filterMap Json.asStr).toFinset
            ∪ (([Json.str "a", Json.str "b"] : List Json).filterMap Json.asStr).toFinset
      ∧ (strs.map Json.str).length
          = ((([Json.str "a"] : List Json).filterMap Json.asStr).toFinset
              ∪ (([Json.str "a", Json.str "b"] : List Json).filterMap Json.asStr).toFinset).card := by
  refine (c2_set_union_semantics
    (.obj [("permissions", .obj [("allow", .arr [.str "a"]), ("deny", .arr [])])])
    (.obj [("permissions", .obj [("allow", .arr [.str "a", .str "b"]), ("deny", .arr [])])])
    "s" "ts"
    (.obj [("permissions", .obj [("allow", .arr [.str "a", .str "b"]), ("deny", .arr [])])])
    ⟨"s", "ts", ["allow:b"], false⟩
    [("permissions", .obj [("allow", .arr [.str "a"]), ("deny", .arr [])])]
    [("allow", .arr [.str "a"]), ("deny", .arr [])]
    rfl rfl rfl "allow" "allow:" (Or.inl ⟨rfl, rfl⟩)).1
    [.str "a", .str "b"] rfl [.str "a"] rfl ?_ ?_
  · intro v hv
    rw [List.mem_singleton] at hv
    exact ⟨"a", hv⟩
  · intro v hv
    rcases List.mem_cons.mp hv with h | h
    · exact ⟨"a", h⟩
    · rw [List.mem_singleton] at h
      exact ⟨"b", h⟩

/-- C9: when the source supplies `permissions.allow` (respectively deny) as an
array, non-string source entries are skipped (nothing is added for them and
every recorded item stems from a string entry of the source array), non-string
entries previously in the target's list are dropped by the rebuild, and the
resulting array contains only strings — its members are exactly the string
entries of the pre-merge target list together with the string entries of the
source array. -/
theorem c9_non_string_handling
    (target source : Json) (name ts : String) (t' : Json) (rec : MergeHistory)
    (tkvs pkvs : List (String × Json))
    (hmerge : mergePermissions target source name ts = .ok (t', rec))
    (hens : ensurePermissions target = .ok tkvs)
    (hperm : lookupKey tkvs "permissions" = some (.obj pkvs)) :
    (∀ key tag, (key = "allow" ∧ tag = "allow:") ∨ (key = "deny" ∧ tag = "deny:") →
      ∀ srcItems,
        ((source.get "permissions").bind (·.get key)).bind Json.asArr = some srcItems →
        ∀ tl, lookupKey pkvs key = some (.arr tl) →
        ∃ (pkvs2 : List (String × Json)) (res : List Json),
          t'.get "permissions" = some (.obj pkvs2)
          ∧ lookupKey pkvs2 key = some (.arr res)
          ∧ (∀ v ∈ res, ∃ s, v = Json.str s)
          ∧ (∀ v, v ∈ res ↔ ∃ s, v = Json.str s
              ∧ (s ∈ tl.filterMap Json.asStr ∨ s ∈ srcItems.filterMap Json.asStr)))
    ∧ (∀ it ∈ rec.merged_items, ∃ s,
        (it = "allow:" ++ s ∧ ∃ srcA,
          ((source.get "permissions").bind (·.get "allow")).bind Json.asArr = some srcA
          ∧ Json.str s ∈ srcA)
        ∨ (it = "deny:" ++ s ∧ ∃ srcD,
          ((source.get "permissions").bind (·.get "deny")).bind Json.asArr = some srcD
          ∧ Json.str s ∈ srcD)) := by
  constructor
  · intro key tag hkt srcItems hsrc tl htl
    obtain ⟨hsome, _⟩ := mergePermissions_key_result hmerge hens hperm key tag hkt
    obtain ⟨pkvs2, tl', htl', hget, hlook⟩ := hsome srcItems hsrc
    rw [htl] at htl'
    obtain rfl : tl = tl' := by simpa using htl'
    refine ⟨pkvs2, (mergeListInto tl srcItems tag).1, hget, hlook, ?_, ?_⟩
    · intro v hv
      obtain ⟨s, rfl, _⟩ := (mergeListInto_mem_fst tl srcItems tag v).mp hv
      exact ⟨s, rfl⟩
    · exact mergeListInto_mem_fst tl srcItems tag
  · exact mergePermissions_items_prov hmerge hens

/-- Witness for C9: target allow `[1,"a"]`, source allow `["a",2,"b"]`; the
resulting allow list keeps exactly the strings. -/
theorem c9_witness :
    ∃ (pkvs2 : List (String × Json)) (res : List Json),
      (Json.obj [("permissions",
          .obj [("allow", .arr [.str "a", .str "b"]), ("deny", .arr [])])]).get "permissions"
        = some (.obj pkvs2)
      ∧ lookupKey pkvs2 "allow" = some (.arr res)
      ∧ (∀ v ∈ res, ∃ s, v = Json.str s)
      ∧ (∀ v, v ∈ res ↔ ∃ s, v = Json.str s
          ∧ (s ∈ ([Json.num 1, Json.str "a"] : List Json).filterMap Json.asStr
             ∨ s ∈ ([Json.str "a", Json.num 2, Json.str "b"] : List Json).filterMap Json.asStr)) := by
  exact (c9_non_string_handling
    (.obj [("permissions", .obj [("allow", .arr [.num 1, .str "a"]), ("deny", .arr [])])])
    (.obj [("permissions", .obj [("allow", .arr [.str "a", .num 2, .str "b"])])])
    "s" "ts"
    (.obj [("permissions", .obj [("allow", .arr [.str "a", .str "b"]), ("deny", .arr [])])])
    ⟨"s", "ts", ["allow:b"], false⟩
    [("permissions", .obj [("allow", .arr [.num 1, .str "a"]), ("deny", .arr [])])]
    [("allow", .arr [.num 1, .str "a"]), ("deny", .arr [])]
    rfl rfl rfl).1 "allow" "allow:" (Or.inl ⟨rfl, rfl⟩)
    [.str "a", .num 2, .str "b"] rfl [.num 1, .str "a"] rfl

/-! ### Lemmas about the env-map loop -/

theorem envFold_lookup_pres :
    ∀ (senv : List (String × Json)) (acc : List (String × Json) × List String)
      {ek : String} {w : Json},
      lookupKey acc.1 ek = some w →
      lookupKey (senv.foldl envMergeStep acc).1 ek = some w := by
  intro senv
  induction senv with
  | nil => intro acc ek w h; simpa using h
  | cons hd rest ih =>
    intro acc ek w h
    rw [List.foldl_cons]
    apply ih
    unfold envMergeStep
    split
    · exact h
    · exact lookup_append_of_some _ h

theorem envFold_items_mono :
    ∀ (senv : List (String × Json)) (acc : List (String × Json) × List String)
      {it : String},
      it ∈ acc.2 → it ∈ (senv.foldl envMergeStep acc).2 := by
  intro senv
  induction senv with
  | nil => intro acc it h; simpa using h
  | cons hd rest ih =>
    intro acc it h
    rw [List.foldl_cons]
    apply ih
    unfold envMergeStep
    split
    · exact h
    · exact List.mem_append.mpr (Or.inl h)

theorem envFold_new :
    ∀ (senv : List (String × Json)) (acc : List (String × Json) × List String)
      {ek : String} {v : Json},
      lookupKey senv ek = some v →
      lookupKey acc.1 ek = none →
      lookupKey (senv.foldl envMergeStep acc).1 ek = some v
      ∧ ("env:" ++ ek) ∈ (senv.foldl envMergeStep acc).2 := by
  intro senv
  induction senv with
  | nil => intro acc ek v h; simp [lookupKey] at h
  | cons hd rest ih =>
    obtain ⟨k, w⟩ := hd
    intro acc ek v hsenv hacc
    rw [List.foldl_cons]
    by_cases hk : k = ek
    · subst hk
      have hwv : w = v := by simpa [lookupKey] using hsenv
      subst hwv
      have hstep : envMergeStep acc (k, w)
          = (acc.1 ++ [(k, w)], acc.2 ++ ["env:" ++ k]) := by
        unfold envMergeStep
        rw [if_neg (by simp [containsKey, hacc])]
      rw [hstep]
      constructor
      · apply envFold_lookup_pres
        show lookupKey (acc.1 ++ [(k, w)]) k = some w
        rw [lookup_append_of_none _ hacc]
        simp [lookupKey]
      · apply envFold_items_mono
        simp
    · have hsenv' : lookupKey rest ek = some v := by simpa [lookupKey, hk] using hsenv
      have hacc' : lookupKey (envMergeStep acc (k, w)).1 ek = none := by
        unfold envMergeStep
        split
        · exact hacc
        · show lookupKey (acc.1 ++ [(k, w)]) ek = none
          rw [lookup_append_of_none _ hacc]
          simp [lookupKey, hk]
      exact ih _ hsenv' hacc'

/-! ### Structural lemmas about the merge-full fold -/

theorem mergeFullFold_cons_inv {tgt : List (String × Json)} {k : String} {v : Json}
    {rest : List (String × Json)} {t2 : List (String × Json)} {items : List String}
    (h : mergeFullFold tgt ((k, v) :: rest) = .ok (t2, items)) :
    ∃ t1 i1 i2, mergeFullEntry tgt k v = .ok (t1, i1)
      ∧ mergeFullFold t1 rest = .ok (t2, i2) ∧ items = i1 ++ i2 := by
  simp only [mergeFullFold] at h
  split at h
  · cases h
  · rename_i t1 i1 hentry
    split at h
    · cases h
    · rename_i t2' i2 hrest
      simp only [Except.ok.injEq, Prod.mk.injEq] at h
      exact ⟨t1, i1, i2, hentry, h.1 ▸ hrest, h.2.symm⟩

theorem mergeFullFold_pres_some :
    ∀ (src : List (String × Json)) {tgt t2 : List (String × Json)} {items : List String}
      {k : String} {w : Json},
      mergeFullFold tgt src = .ok (t2, items) →
      k ≠ "permissions" → k ≠ "env" →
      lookupKey tgt k = some w → lookupKey t2 k = some w := by
  intro src
  induction src with
  | nil =>
    intro tgt t2 items k w h hp he htgt
    simp only [mergeFullFold, Except.ok.injEq, Prod.mk.injEq] at h
    rw [← h.1]
    exact htgt
  | cons hd rest ih =>
    obtain ⟨k₁, v⟩ := hd
    intro tgt t2 items k w h hp he htgt
    obtain ⟨t1, i1, i2, hentry, hrest, hitems⟩ := mergeFullFold_cons_inv h
    by_cases hk : k₁ = k
    · subst hk
      rw [mergeFullEntry_other tgt k₁ v hp he] at hentry
      rw [if_pos (by simp [containsKey, htgt])] at hentry
      simp only [Except.ok.injEq, Prod.mk.injEq] at hentry
      exact ih hrest hp he (by rw [← hentry.1]; exact htgt)
    · have h1 : lookupKey t1 k = some w := by
        rw [mergeFullEntry_ok_lookup_ne hentry (fun hh => hk hh.symm)]
        exact htgt
      exact ih hrest hp he h1

theorem mergeFullFold_new_key :
    ∀ (src : List (String × Json)) {tgt t2 : List (String × Json)} {items : List String}
      {k : String} {v : Json},
      mergeFullFold tgt src = .ok (t2, items) →
      k ≠ "permissions" → k ≠ "env" →
      lookupKey src k = some v → lookupKey tgt k = none →
      lookupKey t2 k = some v ∧ k ∈ items := by
  intro src
  induction src with
  | nil =>
    intro tgt t2 items k v h hp he hsrc
    simp [lookupKey] at hsrc
  | cons hd rest ih =>
    obtain ⟨k₁, w⟩ := hd
    intro tgt t2 items k v h hp he hsrc htgt
    obtain ⟨t1, i1, i2, hentry, hrest, hitems⟩ := mergeFullFold_cons_inv h
    subst hitems
    by_cases hk : k₁ = k
    · subst hk
      have hwv : w = v := by simpa [lookupKey] using hsrc
      subst hwv
      rw [mergeFullEntry_other tgt k₁ w hp he] at hentry
      rw [if_neg (by simp [containsKey, htgt])] at hentry
      simp only [Except.ok.injEq, Prod.mk.injEq] at hentry
      have ht1k : lookupKey t1 k₁ = some w := by
        rw [← hentry.1]
        exact lookup_setKey_self _ _ _
      refine ⟨mergeFullFold_pres_some rest hrest hp he ht1k, ?_⟩
      apply List.mem_append.mpr
      left
      rw [← hentry.2]
      exact List.mem_singleton.mpr rfl
    · have hsrc' : lookupKey rest k = some v := by simpa [lookupKey, hk] using hsrc
      have htgt1 : lookupKey t1 k = none := by
        rw [mergeFullEntry_ok_lookup_ne hentry (fun hh => hk hh.symm)]
        exact htgt
      obtain ⟨h1, h2⟩ := ih hrest hp he hsrc' htgt1
      exact ⟨h1, List.mem_append.mpr (Or.inr h2)⟩

theorem mergeFullFold_pres_absent_key :
    ∀ (src : List (String × Json)) {tgt t2 : List (String × Json)} {items : List String}
      {k : String},
      mergeFullFold tgt src = .ok (t2, items) →
      (∀ p ∈ src, p.1 ≠ k) →
      lookupKey t2 k = lookupKey tgt k := by
  intro src
  induction src with
  | nil =>
    intro tgt t2 items k h _
    simp only [mergeFullFold, Except.ok.injEq, Prod.mk.injEq] at h
    rw [← h.1]
  | cons hd rest ih =>
    obtain ⟨k₁, v⟩ := hd
    intro tgt t2 items k h hk
    obtain ⟨t1, i1, i2, hentry, hrest, hitems⟩ := mergeFullFold_cons_inv h
    have hne : k ≠ k₁ := fun hh => hk (k₁, v) (List.mem_cons_self _ _) hh.symm
    rw [ih hrest (fun p hp => hk p (List.mem_cons_of_mem _ hp))]
    exact mergeFullEntry_ok_lookup_ne hentry hne

theorem mergeFullFold_env :
    ∀ (src : List (String × Json)) {tgt t2 : List (String × Json)} {items : List String}
      {senv tenv : List (String × Json)},
      mergeFullFold tgt src = .ok (t2, items) →
      lookupKey src "env" = some (.obj senv) →
      lookupKey tgt "env" = some (.obj tenv) →
      (src.map Prod.fst).Nodup →
      lookupKey t2 "env" = some (.obj (envMergeFold tenv senv).1)
      ∧ ∀ it ∈ (envMergeFold tenv senv).2, it ∈ items := by
  intro src
  induction src with
  | nil =>
    intro tgt t2 items senv tenv h hsenv
    simp [lookupKey] at hsenv
  | cons hd rest ih =>
    obtain ⟨k₁, v⟩ := hd
    intro tgt t2 items senv tenv h hsenv htenv hnd
    obtain ⟨t1, i1, i2, hentry, hrest, hitems⟩ := mergeFullFold_cons_inv h
    subst hitems
    by_cases hk : k₁ = "env"
    · subst hk
      have hv : v = .obj senv := by simpa [lookupKey] using hsenv
      subst hv
      have hcond : containsKey tgt "env" = true := by simp [containsKey, htenv]
      rw [mergeFullEntry_env_obj tgt senv tgt (by rw [if_pos hcond])] at hentry
      rw [htenv] at hentry
      simp only [Except.ok.injEq, Prod.mk.injEq] at hentry
      have hrestkeys : ∀ p ∈ rest, p.1 ≠ "env" := by
        intro p hp hpe
        have : "env" ∈ rest.map Prod.fst := List.mem_map.mpr ⟨p, hp, hpe⟩
        simp only [List.map_cons, List.nodup_cons] at hnd
        exact hnd.1 this
      constructor
      · rw [mergeFullFold_pres_absent_key rest hrest hrestkeys, ← hentry.1]
        exact lookup_setKey_self _ _ _
      · intro it hit
        apply List.mem_append.mpr
        left
        rw [← hentry.2]
        exact hit
    · have hsenv' : lookupKey rest "env" = some (.obj senv) := by
        simpa [lookupKey, hk] using hsenv
      have htenv1 : lookupKey t1 "env" = some (.obj tenv) := by
        rw [mergeFullEntry_ok_lookup_ne hentry (fun hh => hk hh.symm)]
        exact htenv
      have hnd' : (rest.map Prod.fst).Nodup := by
        simp only [List.map_cons, List.nodup_cons] at hnd
        exact hnd.2
      obtain ⟨h1, h2⟩ := ih hrest hsenv' htenv1 hnd'
      exact ⟨h1, fun it hit => List.mem_append.mpr (Or.inr (h2 it hit))⟩

/-- C3: in `merge_full`, a top-level source key other than `permissions` and
`env` is copied only when absent from the target (and then recorded as a bare
key in `merged_items`); when present the target value is kept and the source
value silently dropped.  Each source env entry is copied only when its key is
absent from the target's env map (recording `env:<key>`), and existing target
env entries are never overwritten.  Concretely, target `{"theme":"dark"}` and
source `{"theme":"light","env":{"X":"1"}}` leave `theme` as `"dark"` and add
`env.X = "1"`. -/
theorem c3_merge_full_target_wins :
    (∀ (tgtKVs srcKVs : List (String × Json)) (name ts : String) (t' : Json)
       (rec : MergeHistory),
      mergeFull (.obj tgtKVs) (.obj srcKVs) name ts = .ok (t', rec) →
      (∀ k w, k ≠ "permissions" → k ≠ "env" →
        lookupKey tgtKVs k = some w → t'.get k = some w)
      ∧ (∀ k v, k ≠ "permissions" → k ≠ "env" →
        lookupKey srcKVs k = some v → lookupKey tgtKVs k = none →
        t'.get k = some v ∧ k ∈ rec.merged_items)
      ∧ (∀ senv tenv, lookupKey srcKVs "env" = some (.obj senv) →
          lookupKey tgtKVs "env" = some (.obj tenv) →
          (srcKVs.map Prod.fst).Nodup →
          ∃ envKVs, t'.get "env" = some (.obj envKVs)
            ∧ (∀ ek w, lookupKey tenv ek = some w → lookupKey envKVs ek = some w)
            ∧ (∀ ek v, lookupKey senv ek = some v → lookupKey tenv ek = none →
                lookupKey envKVs ek = some v ∧ ("env:" ++ ek) ∈ rec.merged_items)))
    ∧ mergeFull (.obj [("theme", .str "dark")])
        (.obj [("env", .obj [("X", .str "1")]), ("theme", .str "light")]) "s" "ts"
      = .ok (.obj [("theme", .str "dark"), ("env", .obj [("X", .str "1")])],
          ⟨"s", "ts", ["env:X"], true⟩) := by
  constructor
  · intro tgtKVs srcKVs name ts t' rec hmerge
    have hinv : ∃ t2 items, mergeFullFold tgtKVs srcKVs = .ok (t2, items)
        ∧ t' = .obj t2 ∧ rec = ⟨name, ts, items, true⟩ := by
      simp only [mergeFull] at hmerge
      split at hmerge
      · cases hmerge
      · rename_i t2 items hfold
        simp only [Except.ok.injEq, Prod.mk.injEq] at hmerge
        exact ⟨t2, items, hfold, hmerge.1.symm, hmerge.2.symm⟩
    obtain ⟨t2, items, hfold, ht', hrec⟩ := hinv
    subst ht'
    subst hrec
    refine ⟨?_, ?_, ?_⟩
    · intro k w hp he htgt
      exact mergeFullFold_pres_some srcKVs hfold hp he htgt
    · intro k v hp he hsrc htgt
      exact mergeFullFold_new_key srcKVs hfold hp he hsrc htgt
    · intro senv tenv hsenv htenv hnd
      obtain ⟨h1, h2⟩ := mergeFullFold_env srcKVs hfold hsenv htenv hnd
      refine ⟨(envMergeFold tenv senv).1, h1, ?_, ?_⟩
      · intro ek w hw
        exact envFold_lookup_pres senv (tenv, []) hw
      · intro ek v hv hnone
        obtain ⟨ha, hb⟩ := envFold_new senv (tenv, []) hv hnone
        exact ⟨ha, h2 _ hb⟩
  · rfl

/-- Witness for C3: merging source `{"x":1}` into target `{}` copies `x` and
records the bare key. -/
theorem c3_witness :
    (Json.obj [("x", Json.num 1)]).get "x" = some (Json.num 1)
    ∧ "x" ∈ (MergeHistory.mk "s" "ts" ["x"] true).merged_items := by
  exact (c3_merge_full_target_wins.1 [] [("x", .num 1)] "s" "ts"
    (.obj [("x", .num 1)]) ⟨"s", "ts", ["x"], true⟩ rfl).2.1 "x" (.num 1)
    (by decide) (by decide) rfl rfl

/-! ### Idempotence machinery -/

theorem getPermArrayKVs_ok_inv {tgt : List (String × Json)} {key : String} {xs : List Json}
    (h : getPermArrayKVs tgt key = .ok xs) :
    ∃ pkvs, lookupKey tgt "permissions" = some (.obj pkvs)
      ∧ lookupKey pkvs key = some (.arr xs) := by
  unfold getPermArrayKVs at h
  split at h
  · rename_i pkvs hp
    split at h
    · rename_i xs0 hk
      simp only [Except.ok.injEq] at h
      subst h
      exact ⟨pkvs, hp, hk⟩
    · cases h
    · cases h
  · cases h
  · cases h
  · cases h

theorem mergePermStep_ok_some_shape {tgt t' : List (String × Json)} {src : List Json}
    {key tag : String} {its : List String}
    (h : mergePermStep tgt (some src) key tag = .ok (t', its)) :
    ∃ pkvs tl, lookupKey tgt "permissions" = some (.obj pkvs)
      ∧ lookupKey pkvs key = some (.arr tl)
      ∧ t' = setKey tgt "permissions"
          (.obj (setKey pkvs key (.arr (mergeListInto tl src tag).1)))
      ∧ its = (mergeListInto tl src tag).2 := by
  cases hg : getPermArrayKVs tgt key with
  | error e => simp [mergePermStep, hg] at h
  | ok xs =>
    obtain ⟨pkvs, hp, hk⟩ := getPermArrayKVs_ok_inv hg
    obtain ⟨tl, htl, ht', hits⟩ := mergePermStep_ok_inv hp h
    exact ⟨pkvs, tl, hp, htl, ht', hits⟩

theorem filterMap_asStr_of_map_str (strs : List String) :
    (strs.map Json.str).filterMap Json.asStr = strs := by
  induction strs with
  | nil => rfl
  | cons hd tl ih =>
    rw [List.map_cons, List.filterMap_cons]
    simp only [Json.asStr]
    rw [ih]

theorem mergeListInto_idem (xs sa : List Json) (tag : String) :
    mergeListInto (mergeListInto xs sa tag).1 sa tag = ((mergeListInto xs sa tag).1, []) := by
  have hfst : (mergeListInto xs sa tag).1
      = (addStrings (xs.filterMap Json.asStr).dedup sa tag).1.map Json.str := rfl
  have hnd : (addStrings (xs.filterMap Json.asStr).dedup sa tag).1.Nodup :=
    addStrings_fst_nodup _ _ (List.nodup_dedup _)
  have hsub : ∀ s ∈ sa.filterMap Json.asStr,
      s ∈ (addStrings (xs.filterMap Json.asStr).dedup sa tag).1 :=
    fun s hs => (addStrings_fst_mem _ sa tag s).mpr (Or.inr hs)
  rw [hfst]
  unfold mergeListInto
  rw [filterMap_asStr_of_map_str, List.Nodup.dedup hnd, addStrings_eq_of_subset tag hsub]

theorem mergePermStep_idem_shape {tgt : List (String × Json)}
    (pkvs : List (String × Json))
    {key tag : String} {L : List Json} {sa : List Json}
    (hp : lookupKey tgt "permissions" = some (.obj pkvs))
    (hk : lookupKey pkvs key = some (.arr L))
    (hL : mergeListInto L sa tag = (L, [])) :
    mergePermStep tgt (some sa) key tag = .ok (tgt, []) := by
  rw [mergePermStep_some_ok hp hk, hL]
  simp only [setKey_of_lookup_eq hk, setKey_of_lookup_eq hp]

theorem ensurePermissions_contains {target : Json} {t0 : List (String × Json)}
    (h : ensurePermissions target = .ok t0) : ∃ pv, lookupKey t0 "permissions" = some pv := by
  unfold ensurePermissions at h
  split at h
  · rename_i pv hget
    split at h
    · rename_i kvs
      simp only [Except.ok.injEq] at h
      subst h
      exact ⟨pv, hget⟩
    · cases h
  · rename_i hget
    split at h
    · rename_i kvs
      simp only [Except.ok.injEq] at h
      subst h
      exact ⟨defaultPerms, lookup_setKey_self _ _ _⟩
    · simp only [Except.ok.injEq] at h
      subst h
      exact ⟨defaultPerms, by simp [lookupKey]⟩
    · cases h

theorem mergePermStep_ok_contains {tgt t' : List (String × Json)}
    {srcL : Option (List Json)} {key tag : String} {its : List String}
    (h : mergePermStep tgt srcL key tag = .ok (t', its))
    {pv : Json} (hc : lookupKey tgt "permissions" = some pv) :
    ∃ pv', lookupKey t' "permissions" = some pv' := by
  cases srcL with
  | none =>
    simp only [mergePermStep, Except.ok.injEq, Prod.mk.injEq] at h
    exact ⟨pv, by rw [← h.1]; exact hc⟩
  | some src =>
    obtain ⟨pkvs, tl, hp, htl, ht', hits⟩ := mergePermStep_ok_some_shape h
    refine ⟨.obj (setKey pkvs key (.arr (mergeListInto tl src tag).1)), ?_⟩
    rw [ht']
    exact lookup_setKey_self _ _ _

theorem mergePermissions_ok_ens {target source : Json} {name ts : String}
    {t' : Json} {rec : MergeHistory}
    (h : mergePermissions target source name ts = .ok (t', rec)) :
    ∃ t0, ensurePermissions target = .ok t0 := by
  simp only [mergePermissions] at h
  split at h
  · cases h
  · rename_i t0 hens
    exact ⟨t0, hens⟩

theorem mergePermissions_idem
    {target source : Json} {name ts name2 ts2 : String} {t1 : Json} {rec1 : MergeHistory}
    (h1 : mergePermissions target source name ts = .ok (t1, rec1)) :
    mergePermissions t1 source name2 ts2 = .ok (t1, ⟨name2, ts2, [], false⟩) := by
  obtain ⟨t0, hens⟩ := mergePermissions_ok_ens h1
  obtain ⟨t1k, i1, t2k, i2, hA, hD, ht1, hrec⟩ := mergePermissions_ok_inv hens h1
  subst ht1
  obtain ⟨pv0, hc0⟩ := ensurePermissions_contains hens
  obtain ⟨pv1, hc1⟩ := mergePermStep_ok_contains hA hc0
  obtain ⟨pv2, hc2⟩ := mergePermStep_ok_contains hD hc1
  have hens2 : ensurePermissions (.obj t2k) = .ok t2k := by
    unfold ensurePermissions
    simp [Json.get, hc2]
  suffices h : (mergePermStep t2k
        (((source.get "permissions").bind (·.get "allow")).bind Json.asArr) "allow" "allow:"
        = .ok (t2k, []))
      ∧ (mergePermStep t2k
        (((source.get "permissions").bind (·.get "deny")).bind Json.asArr) "deny" "deny:"
        = .ok (t2k, [])) by
    simp only [mergePermissions, hens2, h.1, h.2, List.nil_append]
  constructor
  · cases hsA : ((source.get "permissions").bind (·.get "allow")).bind Json.asArr with
    | none => rfl
    | some sa =>
      rw [hsA] at hA
      obtain ⟨pkvs0, L0, hp0, hk0, ht1k, hi1⟩ := mergePermStep_ok_some_shape hA
      have hp1 : lookupKey t1k "permissions"
          = some (.obj (setKey pkvs0 "allow" (.arr (mergeListInto L0 sa "allow:").1))) := by
        rw [ht1k]
        exact lookup_setKey_self _ _ _
      have hk1 : lookupKey (setKey pkvs0 "allow" (.arr (mergeListInto L0 sa "allow:").1)) "allow"
          = some (.arr (mergeListInto L0 sa "allow:").1) := lookup_setKey_self _ _ _
      cases hsD : ((source.get "permissions").bind (·.get "deny")).bind Json.asArr with
      | none =>
        rw [hsD] at hD
        simp only [mergePermStep, Except.ok.injEq, Prod.mk.injEq] at hD
        apply mergePermStep_idem_shape
          (setKey pkvs0 "allow" (.arr (mergeListInto L0 sa "allow:").1))
        · rw [← hD.1]
          exact hp1
        · exact hk1
        · exact mergeListInto_idem L0 sa "allow:"
      | some sd =>
        rw [hsD] at hD
        obtain ⟨pkvs1, L1, hp1', hk1', ht2k, hi2⟩ := mergePermStep_ok_some_shape hD
        have hpe : pkvs1 = setKey pkvs0 "allow" (.arr (mergeListInto L0 sa "allow:").1) := by
          rw [hp1] at hp1'
          have h2 : setKey pkvs0 "allow" (.arr (mergeListInto L0 sa "allow:").1) = pkvs1 := by
            simpa using hp1'
          exact h2.symm
        apply mergePermStep_idem_shape
          (setKey pkvs1 "deny" (.arr (mergeListInto L1 sd "deny:").1))
        · rw [ht2k]
          exact lookup_setKey_self _ _ _
        · rw [lookup_setKey_ne _ _ (by decide : ("allow" : String) ≠ "deny"), hpe]
          exact hk1
        · exact mergeListInto_idem L0 sa "allow:"
  · cases hsD : ((source.get "permissions").bind (·.get "deny")).bind Json.asArr with
    | none => rfl
    | some sd =>
      rw [hsD] at hD
      obtain ⟨pkvs1, L1, hp1', hk1', ht2k, hi2⟩ := mergePermStep_ok_some_shape hD
      apply mergePermStep_idem_shape
        (setKey pkvs1 "deny" (.arr (mergeListInto L1 sd "deny:").1))
      · rw [ht2k]
        exact lookup_setKey_self _ _ _
      · exact lookup_setKey_self _ _ _
      · exact mergeListInto_idem L1 sd "deny:"

theorem envFold_contains_mono (senv : List (String × Json))
    (acc : List (String × Json) × List String) {k : String}
    (h : containsKey acc.1 k = true) :
    containsKey (senv.foldl envMergeStep acc).1 k = true := by
  rw [containsKey, lookup_isSome_iff] at h ⊢
  obtain ⟨w, hw⟩ := h
  exact ⟨w, envFold_lookup_pres senv acc hw⟩

theorem envFold_contains :
    ∀ (senv : List (String × Json)) (acc : List (String × Json) × List String)
      {p : String × Json}, p ∈ senv →
      containsKey (senv.foldl envMergeStep acc).1 p.1 = true := by
  intro senv
  induction senv with
  | nil =>
    intro acc p h
    cases h
  | cons hd rest ih =>
    intro acc p h
    rw [List.foldl_cons]
    rcases List.mem_cons.mp h with rfl | h2
    · apply envFold_contains_mono
      unfold envMergeStep
      split
      · rename_i hcond
        exact hcond
      · rename_i hcond
        have hnone : lookupKey acc.1 p.1 = none := by
          cases hl : lookupKey acc.1 p.1 with
          | none => rfl
          | some w => exact absurd (by rw [containsKey, hl]; rfl) hcond
        rw [containsKey, lookup_isSome_iff]
        refine ⟨p.2, ?_⟩
        rw [lookup_append_of_none _ hnone]
        obtain ⟨pk, pv⟩ := p
        simp [lookupKey]
    · exact ih _ h2

theorem envFold_noop :
    ∀ (senv : List (String × Json)) (acc : List (String × Json) × List String),
      (∀ p ∈ senv, containsKey acc.1 p.1 = true) →
      senv.foldl envMergeStep acc = acc := by
  intro senv
  induction senv with
  | nil =>
    intro acc _
    rfl
  | cons hd rest ih =>
    intro acc h
    rw [List.foldl_cons]
    have hstep : envMergeStep acc hd = acc := by
      unfold envMergeStep
      rw [if_pos (h hd (List.mem_cons_self _ _))]
    rw [hstep]
    exact ih acc (fun p hp => h p (List.mem_cons_of_mem _ hp))

theorem entryReady_transport {w w' : List (String × Json)} {k : String} {v : Json}
    (hlook : lookupKey w' k = lookupKey w k) (h : entryReady w k v) : entryReady w' k v := by
  unfold entryReady at h ⊢
  by_cases hp : k = "permissions"
  · subst hp
    rw [if_pos rfl] at h ⊢
    obtain ⟨hc, hv⟩ := h
    refine ⟨by rw [containsKey, hlook]; exact hc, ?_⟩
    cases v <;> try trivial
    rename_i srcPerms
    obtain ⟨ha, hd⟩ := hv
    constructor
    · intro sa hsa
      obtain ⟨pkvs, L, h1, h2, h3⟩ := ha sa hsa
      exact ⟨pkvs, L, by rw [hlook]; exact h1, h2, h3⟩
    · intro sd hsd
      obtain ⟨pkvs, L, h1, h2, h3⟩ := hd sd hsd
      exact ⟨pkvs, L, by rw [hlook]; exact h1, h2, h3⟩
  · by_cases he : k = "env"
    · subst he
      rw [if_neg hp, if_pos rfl] at h ⊢
      cases v <;> try trivial
      rename_i senv
      rcases h with ⟨e, h1, h2⟩ | ⟨x, h1, h2⟩
      · exact Or.inl ⟨e, by rw [hlook]; exact h1, h2⟩
      · exact Or.inr ⟨x, by rw [hlook]; exact h1, h2⟩
    · rw [if_neg hp, if_neg he] at h ⊢
      rw [containsKey, hlook]
      exact h

theorem entryReady_noop {w : List (String × Json)} {k : String} {v : Json}
    (h : entryReady w k v) : mergeFullEntry w k v = .ok (w, []) := by
  unfold entryReady at h
  by_cases hp : k = "permissions"
  · subst hp
    rw [if_pos rfl] at h
    obtain ⟨hc, hv⟩ := h
    cases v
    all_goals try
      (rw [mergeFullEntry_perm_non_obj w _ (by rfl), if_pos hc])
    rename_i srcPerms
    obtain ⟨hallow, hdeny⟩ := hv
    rw [mergeFullEntry_perm_obj w srcPerms w (by rw [if_pos hc])]
    have hstepA : mergePermStep w ((lookupKey srcPerms "allow").bind Json.asArr)
        "allow" "permissions.allow:" = .ok (w, []) := by
      cases hsa : (lookupKey srcPerms "allow").bind Json.asArr with
      | none => rfl
      | some sa =>
        obtain ⟨pkvs, L, h1, h2, h3⟩ := hallow sa hsa
        exact mergePermStep_idem_shape _ h1 h2 h3
    have hstepD : mergePermStep w ((lookupKey srcPerms "deny").bind Json.asArr)
        "deny" "permissions.deny:" = .ok (w, []) := by
      cases hsd : (lookupKey srcPerms "deny").bind Json.asArr with
      | none => rfl
      | some sd =>
        obtain ⟨pkvs, L, h1, h2, h3⟩ := hdeny sd hsd
        exact mergePermStep_idem_shape _ h1 h2 h3
    simp only [hstepA, hstepD, List.nil_append]
  · by_cases he : k = "env"
    · subst he
      rw [if_neg hp, if_pos rfl] at h
      cases v
      all_goals try (exact mergeFullEntry_env_non_obj w _ (by rfl))
      rename_i senv
      rcases h with ⟨e, he1, he2⟩ | ⟨x, hx1, hx2⟩
      · have hc : containsKey w "env" = true := by rw [containsKey, he1]; rfl
        rw [mergeFullEntry_env_obj w senv w (by rw [if_pos hc])]
        have hfold : envMergeFold e senv = (e, []) := he2
        simp only [he1, hfold, setKey_of_lookup_eq he1]
      · have hc : containsKey w "env" = true := by rw [containsKey, hx1]; rfl
        rw [mergeFullEntry_env_obj w senv w (by rw [if_pos hc])]
        rw [hx1]
        cases x <;> first | rfl | simp [Json.isObj] at hx2
    · rw [if_neg hp, if_neg he] at h
      rw [mergeFullEntry_other w k v hp he, if_pos h]

theorem twoStep_ready {t0 t1k t2k : List (String × Json)} {sA sD : Option (List Json)}
    {tagA tagD : String} {i1 i2 : List String}
    (hA : mergePermStep t0 sA "allow" tagA = .ok (t1k, i1))
    (hD : mergePermStep t1k sD "deny" tagD = .ok (t2k, i2)) :
    (∀ sa, sA = some sa →
      ∃ pkvs L, lookupKey t2k "permissions" = some (.obj pkvs)
        ∧ lookupKey pkvs "allow" = some (.arr L) ∧ mergeListInto L sa tagA = (L, []))
    ∧ (∀ sd, sD = some sd →
      ∃ pkvs L, lookupKey t2k "permissions" = some (.obj pkvs)
        ∧ lookupKey pkvs "deny" = some (.arr L) ∧ mergeListInto L sd tagD = (L, [])) := by
  constructor
  · intro sa hsa
    subst hsa
    obtain ⟨pkvs0, L0, hp0, hk0, ht1k, hi1⟩ := mergePermStep_ok_some_shape hA
    have hp1 : lookupKey t1k "permissions"
        = some (.obj (setKey pkvs0 "allow" (.arr (mergeListInto L0 sa tagA).1))) := by
      rw [ht1k]
      exact lookup_setKey_self _ _ _
    cases sD with
    | none =>
      simp only [mergePermStep, Except.ok.injEq, Prod.mk.injEq] at hD
      refine ⟨setKey pkvs0 "allow" (.arr (mergeListInto L0 sa tagA).1),
        (mergeListInto L0 sa tagA).1, ?_, lookup_setKey_self _ _ _,
        mergeListInto_idem L0 sa tagA⟩
      rw [← hD.1]
      exact hp1
    | some sd =>
      obtain ⟨pkvs1, L1, hp1', hk1', ht2k, hi2⟩ := mergePermStep_ok_some_shape hD
      have hpe : pkvs1 = setKey pkvs0 "allow" (.arr (mergeListInto L0 sa tagA).1) := by
        rw [hp1] at hp1'
        have h2 : setKey pkvs0 "allow" (.arr (mergeListInto L0 sa tagA).1) = pkvs1 := by
          simpa using hp1'
        exact h2.symm
      refine ⟨setKey pkvs1 "deny" (.arr (mergeListInto L1 sd tagD).1),
        (mergeListInto L0 sa tagA).1, ?_, ?_, mergeListInto_idem L0 sa tagA⟩
      · rw [ht2k]
        exact lookup_setKey_self _ _ _
      · rw [lookup_setKey_ne _ _ (by decide : ("allow" : String) ≠ "deny"), hpe]
        exact lookup_setKey_self _ _ _
  · intro sd hsd
    subst hsd
    obtain ⟨pkvs1, L1, hp1', hk1', ht2k, hi2⟩ := mergePermStep_ok_some_shape hD
    refine ⟨setKey pkvs1 "deny" (.arr (mergeListInto L1 sd tagD).1),
      (mergeListInto L1 sd tagD).1, ?_, lookup_setKey_self _ _ _,
      mergeListInto_idem L1 sd tagD⟩
    rw [ht2k]
    exact lookup_setKey_self _ _ _

theorem mergeFullEntry_establishes {u u1 : List (String × Json)} {k : String} {v : Json}
    {i1 : List String} (h : mergeFullEntry u k v = .ok (u1, i1)) : entryReady u1 k v := by
  unfold entryReady
  by_cases hp : k = "permissions"
  · subst hp
    rw [if_pos rfl]
    cases v
    all_goals try
      (rw [mergeFullEntry_perm_non_obj u _ (by rfl)] at h
       simp only [Except.ok.injEq, Prod.mk.injEq] at h
       refine ⟨?_, trivial⟩
       rw [← h.1]
       rw [containsKey, lookup_isSome_iff]
       split
       · rename_i hcond
         rw [containsKey, lookup_isSome_iff] at hcond
         exact hcond
       · exact ⟨_, lookup_setKey_self _ _ _⟩)
    rename_i srcPerms
    rw [mergeFullEntry_perm_obj u srcPerms
      (if containsKey u "permissions" then u else setKey u "permissions" defaultPerms) rfl] at h
    split at h
    · cases h
    · rename_i ta ia hstepA
      split at h
      · cases h
      · rename_i td idl hstepD
        simp only [Except.ok.injEq, Prod.mk.injEq] at h
        obtain ⟨htd, _⟩ := h
        subst htd
        have hcA : ∃ pv, lookupKey
            (if containsKey u "permissions" then u else setKey u "permissions" defaultPerms)
            "permissions" = some pv := by
          split
          · rename_i hcond
            rw [containsKey, lookup_isSome_iff] at hcond
            exact hcond
          · exact ⟨_, lookup_setKey_self _ _ _⟩
        obtain ⟨pv0, hpv0⟩ := hcA
        obtain ⟨pv1, hpv1⟩ := mergePermStep_ok_contains hstepA hpv0
        obtain ⟨pv2, hpv2⟩ := mergePermStep_ok_contains hstepD hpv1
        obtain ⟨hready1, hready2⟩ := twoStep_ready hstepA hstepD
        refine ⟨by rw [containsKey, hpv2]; rfl, hready1, hready2⟩
  · by_cases he : k = "env"
    · subst he
      rw [if_neg hp, if_pos rfl]
      cases v
      all_goals try trivial
      rename_i senv
      rw [mergeFullEntry_env_obj u senv
        (if containsKey u "env" then u else setKey u "env" (.obj [])) rfl] at h
      split at h
      · rename_i tenv htenv
        simp only [Except.ok.injEq, Prod.mk.injEq] at h
        left
        refine ⟨(envMergeFold tenv senv).1, ?_, ?_⟩
        · rw [← h.1]
          exact lookup_setKey_self _ _ _
        · apply envFold_noop
          intro p hpmem
          exact envFold_contains senv (tenv, []) hpmem
      · rename_i hno
        simp only [Except.ok.injEq, Prod.mk.injEq] at h
        cases htA : lookupKey
            (if containsKey u "env" then u else setKey u "env" (.obj [])) "env" with
        | none =>
          exfalso
          revert htA
          split
          · rename_i hcond
            intro htA
            rw [containsKey, htA] at hcond
            cases hcond
          · intro htA
            rw [lookup_setKey_self] at htA
            cases htA
        | some x =>
          right
          refine ⟨x, by rw [← h.1]; exact htA, ?_⟩
          cases x <;> try rfl
          rename_i e
          exact (hno e htA).elim
    · rw [if_neg hp, if_neg he]
      rw [mergeFullEntry_other u k v hp he] at h
      split at h
      · rename_i hcond
        simp only [Except.ok.injEq, Prod.mk.injEq] at h
        rw [← h.1]
        exact hcond
      · simp only [Except.ok.injEq, Prod.mk.injEq] at h
        rw [← h.1, containsKey, lookup_isSome_iff]
        exact ⟨v, lookup_setKey_self _ _ _⟩

theorem mergeFullFold_ready :
    ∀ (src : List (String × Json)) {tgt t2 : List (String × Json)} {items : List String},
      mergeFullFold tgt src = .ok (t2, items) →
      (src.map Prod.fst).Nodup →
      ∀ p ∈ src, entryReady t2 p.1 p.2 := by
  intro src
  induction src with
  | nil =>
    intro tgt t2 items h hnd p hp
    cases hp
  | cons hd rest ih =>
    obtain ⟨k, v⟩ := hd
    intro tgt t2 items h hnd p hp
    obtain ⟨t1, i1, i2, hentry, hrest, hitems⟩ := mergeFullFold_cons_inv h
    simp only [List.map_cons, List.nodup_cons] at hnd
    rcases List.mem_cons.mp hp with rfl | hp2
    · have hready1 : entryReady t1 k v := mergeFullEntry_establishes hentry
      have hkeys : ∀ q ∈ rest, q.1 ≠ k := by
        intro q hq hqe
        exact hnd.1 (List.mem_map.mpr ⟨q, hq, hqe⟩)
      exact entryReady_transport (mergeFullFold_pres_absent_key rest hrest hkeys) hready1
    · exact ih hrest hnd.2 p hp2

theorem mergeFullFold_noop :
    ∀ (src : List (String × Json)) (w : List (String × Json)),
      (∀ p ∈ src, entryReady w p.1 p.2) →
      mergeFullFold w src = .ok (w, []) := by
  intro src
  induction src with
  | nil =>
    intro w _
    rfl
  | cons hd rest ih =>
    obtain ⟨k, v⟩ := hd
    intro w h
    have hstep : mergeFullEntry w k v = .ok (w, []) :=
      entryReady_noop (h (k, v) (List.mem_cons_self _ _))
    have hrest : mergeFullFold w rest = .ok (w, []) :=
      ih w (fun p hp => h p (List.mem_cons_of_mem _ hp))
    simp only [mergeFullFold, hstep, hrest, List.nil_append]

theorem mergeFull_idem
    {target source : Json} {name ts name2 ts2 : String} {t1 : Json} {rec1 : MergeHistory}
    (h1 : mergeFull target source name ts = .ok (t1, rec1))
    (hnd : ∀ srcKVs, source = .obj srcKVs → (srcKVs.map Prod.fst).Nodup) :
    mergeFull t1 source name2 ts2 = .ok (t1, ⟨name2, ts2, [], true⟩) := by
  cases source with
  | obj srcKVs =>
    cases target with
    | obj tgtKVs =>
      simp only [mergeFull] at h1
      split at h1
      · cases h1
      · rename_i t2 items hfold
        simp only [Except.ok.injEq, Prod.mk.injEq] at h1
        obtain ⟨ht1, hrec⟩ := h1
        have hready := mergeFullFold_ready srcKVs hfold (hnd srcKVs rfl)
        have hnoop := mergeFullFold_noop srcKVs t2 hready
        rw [← ht1]
        simp only [mergeFull, hnoop]
    | null =>
      simp only [mergeFull, Except.ok.injEq, Prod.mk.injEq] at h1
      rw [← h1.1]
      rfl
    | bool b =>
      simp only [mergeFull, Except.ok.injEq, Prod.mk.injEq] at h1
      rw [← h1.1]
      rfl
    | num n =>
      simp only [mergeFull, Except.ok.injEq, Prod.mk.injEq] at h1
      rw [← h1.1]
      rfl
    | str s =>
      simp only [mergeFull, Except.ok.injEq, Prod.mk.injEq] at h1
      rw [← h1.1]
      rfl
    | arr xs =>
      simp only [mergeFull, Except.ok.injEq, Prod.mk.injEq] at h1
      rw [← h1.1]
      rfl
  | null =>
    simp only [mergeFull, Except.ok.injEq, Prod.mk.injEq] at h1
    rw [← h1.1]
    rfl
  | bool b =>
    simp only [mergeFull, Except.ok.injEq, Prod.mk.injEq] at h1
    rw [← h1.1]
    rfl
  | num n =>
    simp only [mergeFull, Except.ok.injEq, Prod.mk.injEq] at h1
    rw [← h1.1]
    rfl
  | str s =>
    simp only [mergeFull, Except.ok.injEq, Prod.mk.injEq] at h1
    rw [← h1.1]
    rfl
  | arr xs =>
    simp only [mergeFull, Except.ok.injEq, Prod.mk.injEq] at h1
    rw [← h1.1]
    rfl

/-- C5: merging the same source into the same target a second time yields the
identical document and an empty `merged_items` list on the second record, for
both `merge_permissions` and `merge_full` (the latter assuming source objects
have unique keys, as serde_json maps guarantee). -/
theorem c5_merge_idempotent :
    (∀ (target source : Json) (name ts name2 ts2 : String) (t1 : Json) (rec1 : MergeHistory),
      mergePermissions target source name ts = .ok (t1, rec1) →
      mergePermissions t1 source name2 ts2 = .ok (t1, ⟨name2, ts2, [], false⟩))
    ∧ (∀ (target source : Json) (name ts name2 ts2 : String) (t1 : Json) (rec1 : MergeHistory),
      mergeFull target source name ts = .ok (t1, rec1) →
      (∀ srcKVs, source = .obj srcKVs → (srcKVs.map Prod.fst).Nodup) →
      mergeFull t1 source name2 ts2 = .ok (t1, ⟨name2, ts2, [], true⟩)) :=
  ⟨fun _ _ _ _ _ _ _ _ h => mergePermissions_idem h,
   fun _ _ _ _ _ _ _ _ h hnd => mergeFull_idem h hnd⟩

/-- Witness for C5: re-merging the C1 scenario's source into its own result
changes nothing and records nothing. -/
theorem c5_witness :
    mergePermissions
      (.obj [("permissions", .obj [("allow", .arr [.str "Bash(ls)"]), ("deny", .arr [])])])
      (.obj [("permissions", .obj [("allow", .arr [.str "Bash(ls)"]), ("deny", .arr [])])])
      "b" "ts2"
    = .ok (.obj [("permissions", .obj [("allow", .arr [.str "Bash(ls)"]), ("deny", .arr [])])],
        ⟨"b", "ts2", [], false⟩) :=
  c5_merge_idempotent.1 (.obj [])
    (.obj [("permissions", .obj [("allow", .arr [.str "Bash(ls)"]), ("deny", .arr [])])])
    "teamA" "ts" "b" "ts2"
    (.obj [("permissions", .obj [("allow", .arr [.str "Bash(ls)"]), ("deny", .arr [])])])
    ⟨"teamA", "ts", ["allow:Bash(ls)"], false⟩ rfl

/-! ### Round-trip (merge then unmerge) machinery -/

theorem str_data_append (a b : String) : (a ++ b).data = a.data ++ b.data := rfl

theorem lookup_none_forall {l : List (String × Json)} {k : String}
    (h : lookupKey l k = none) : ∀ p ∈ l, p.1 ≠ k := by
  induction l with
  | nil =>
    intro p hp
    cases hp
  | cons hd tl ih =>
    obtain ⟨k', v⟩ := hd
    intro p hp
    by_cases hk : k' = k
    · simp [lookupKey, hk] at h
    · simp only [lookupKey, if_neg hk] at h
      rcases List.mem_cons.mp hp with rfl | hp2
      · exact hk
      · exact ih h p hp2

theorem lookup_filter_mem {kvs : List (String × Json)} {items : List String} {k : String}
    (h : k ∈ items) :
    lookupKey (kvs.filter (fun kv => ¬ kv.1 ∈ items)) k = none := by
  induction kvs with
  | nil => rfl
  | cons hd tl ih =>
    obtain ⟨k', v⟩ := hd
    rw [List.filter_cons]
    by_cases hk : k' ∈ items
    · rw [if_neg (by simpa using hk)]
      exact ih
    · rw [if_pos (by simpa using hk)]
      have hne : k' ≠ k := fun hh => hk (hh ▸ h)
      simpa [lookupKey, hne] using ih

theorem lookup_filter_notmem {kvs : List (String × Json)} {items : List String} {k : String}
    (h : ¬ k ∈ items) :
    lookupKey (kvs.filter (fun kv => ¬ kv.1 ∈ items)) k = lookupKey kvs k := by
  induction kvs with
  | nil => rfl
  | cons hd tl ih =>
    obtain ⟨k', v⟩ := hd
    rw [List.filter_cons]
    by_cases hk : k' ∈ items
    · have hne : k' ≠ k := fun hh => h (hh ▸ hk)
      rw [if_neg (by simpa using hk)]
      simpa [lookupKey, hne] using ih
    · rw [if_pos (by simpa using hk)]
      by_cases hke : k' = k
      · simp [lookupKey, hke]
      · simpa [lookupKey, hke] using ih

theorem stripPerm_lookup_ne (kvs : List (String × Json)) (key v : String) {k : String}
    (hk : k ≠ "permissions") : lookupKey (stripPerm kvs key v) k = lookupKey kvs k := by
  unfold stripPerm
  split
  · split
    · exact lookup_setKey_ne _ _ hk
    · rfl
  · rfl

theorem stripItem_lookup_ne (kvs : List (String × Json)) (item : String) {k : String}
    (hkp : k ≠ "permissions") (hke : k ≠ "env") :
    lookupKey (stripItem kvs item) k = lookupKey kvs k := by
  unfold stripItem
  split
  · split
    · exact lookup_setKey_ne _ _ hke
    · rfl
  · split
    · exact stripPerm_lookup_ne _ _ _ hkp
    · split
      · exact stripPerm_lookup_ne _ _ _ hkp
      · rfl

theorem stripFold_lookup_ne (items : List String) (kvs : List (String × Json)) {k : String}
    (hkp : k ≠ "permissions") (hke : k ≠ "env") :
    lookupKey (items.foldl stripItem kvs) k = lookupKey kvs k := by
  induction items generalizing kvs with
  | nil => rfl
  | cons hd tl ih =>
    rw [List.foldl_cons, ih, stripItem_lookup_ne _ _ hkp hke]

theorem updatePermList_get_ne (t : Json) (key : String) (f : List Json → List Json)
    {k : String} (hk : k ≠ "permissions") :
    (updatePermList t key f).get k = t.get k := by
  cases t <;> try rfl
  rename_i kvs
  simp only [updatePermList]
  split
  · split
    · show lookupKey (setKey kvs "permissions" _) k = lookupKey kvs k
      exact lookup_setKey_ne _ _ hk
    · rfl
  · rfl

theorem unmergePermissions_get_ne (t : Json) (hist : List MergeHistory) (name : String)
    {k : String} (hk : k ≠ "permissions") :
    (unmergePermissions t hist name).1.get k = t.get k := by
  unfold unmergePermissions
  rw [updatePermList_get_ne _ _ _ hk, updatePermList_get_ne _ _ _ hk]

theorem fullItems_append_fresh {h : List MergeHistory} {rec : MergeHistory} {name : String}
    (hfresh : ∀ r ∈ h, ¬ r.source = name) (hsrc : rec.source = name)
    (hfull : rec.full_merge = true) :
    fullItems (h ++ [rec]) name = rec.merged_items := by
  unfold fullItems
  rw [List.filter_append]
  have h1 : h.filter (fun r => r.source = name ∧ r.full_merge) = [] := by
    rw [List.filter_eq_nil_iff]
    intro r hr
    simp only [decide_eq_true_eq]
    intro hand
    exact hfresh r hr hand.1
  have h2 : [rec].filter (fun r => r.source = name ∧ r.full_merge) = [rec] := by
    rw [List.filter_eq_self]
    intro r hr
    rw [List.mem_singleton] at hr
    subst hr
    simp [hsrc, hfull]
  rw [h1, h2]
  simp

theorem unmergeFull_obj (kvs : List (String × Json)) (hist : List MergeHistory)
    (name : String) :
    unmergeFull (.obj kvs) hist name
      = unmergePermissions
          (.obj ((fullItems hist name).foldl stripItem
            (kvs.filter (fun kv => ¬ kv.1 ∈ fullItems hist name)))) hist name := rfl

theorem lookup_mem_of_some {l : List (String × Json)} {k : String} {w : Json}
    (h : lookupKey l k = some w) : (k, w) ∈ l := by
  induction l with
  | nil => cases h
  | cons hd tl ih =>
    obtain ⟨k', v⟩ := hd
    by_cases hk : k' = k
    · subst hk
      have h2 : v = w := by simpa [lookupKey] using h
      subst h2
      exact List.mem_cons_self _ _
    · simp only [lookupKey, if_neg hk] at h
      exact List.mem_cons_of_mem _ (ih h)

theorem mergeFullEntry_presence_mono {tgt t' : List (String × Json)} {k : String} {v : Json}
    {its : List String} {k' : String} {w : Json}
    (h : mergeFullEntry tgt k v = .ok (t', its)) (hw : lookupKey tgt k' = some w) :
    ∃ w', lookupKey t' k' = some w' := by
  by_cases hne : k' = k
  · subst hne
    have hc : containsKey tgt k' = true := by rw [containsKey, hw]; rfl
    by_cases hperm : k' = "permissions"
    · subst hperm
      cases v
      all_goals try
        (rw [mergeFullEntry_perm_non_obj tgt _ (by rfl), if_pos hc] at h
         simp only [Except.ok.injEq, Prod.mk.injEq] at h
         exact ⟨w, by rw [← h.1]; exact hw⟩)
      rename_i srcPerms
      rw [mergeFullEntry_perm_obj tgt srcPerms tgt (by rw [if_pos hc])] at h
      split at h
      · cases h
      · rename_i ta ia hstepA
        split at h
        · cases h
        · rename_i td idl hstepD
          simp only [Except.ok.injEq, Prod.mk.injEq] at h
          obtain ⟨pv1, hpv1⟩ := mergePermStep_ok_contains hstepA hw
          obtain ⟨pv2, hpv2⟩ := mergePermStep_ok_contains hstepD hpv1
          exact ⟨pv2, by rw [← h.1]; exact hpv2⟩
    · by_cases henv : k' = "env"
      · subst henv
        cases v
        all_goals try
          (rw [mergeFullEntry_env_non_obj tgt _ (by rfl)] at h
           simp only [Except.ok.injEq, Prod.mk.injEq] at h
           exact ⟨w, by rw [← h.1]; exact hw⟩)
        rename_i senv
        rw [mergeFullEntry_env_obj tgt senv tgt (by rw [if_pos hc])] at h
        split at h
        · simp only [Except.ok.injEq, Prod.mk.injEq] at h
          exact ⟨_, by rw [← h.1]; exact lookup_setKey_self _ _ _⟩
        · simp only [Except.ok.injEq, Prod.mk.injEq] at h
          exact ⟨w, by rw [← h.1]; exact hw⟩
      · rw [mergeFullEntry_other tgt k' v hperm henv, if_pos hc] at h
        simp only [Except.ok.injEq, Prod.mk.injEq] at h
        exact ⟨w, by rw [← h.1]; exact hw⟩
  · exact ⟨w, by rw [mergeFullEntry_ok_lookup_ne h hne]; exact hw⟩

theorem envFold_items_shape :
    ∀ (senv : List (String × Json)) (acc : List (String × Json) × List String),
      ∀ it ∈ (senv.foldl envMergeStep acc).2, it ∈ acc.2 ∨ ∃ ek, it = "env:" ++ ek := by
  intro senv
  induction senv with
  | nil =>
    intro acc it h
    exact Or.inl h
  | cons hd rest ih =>
    intro acc it h
    rw [List.foldl_cons] at h
    rcases ih (envMergeStep acc hd) it h with h2 | h2
    · unfold envMergeStep at h2
      split at h2
      · exact Or.inl h2
      · rcases List.mem_append.mp h2 with h3 | h3
        · exact Or.inl h3
        · exact Or.inr ⟨hd.1, by simpa using h3⟩
    · exact Or.inr h2

theorem mergeFullEntry_items_shape {tgt t' : List (String × Json)} {k : String} {v : Json}
    {its : List String}
    (h : mergeFullEntry tgt k v = .ok (t', its)) :
    ∀ it ∈ its, (':' ∈ it.data) ∨ lookupKey tgt it = none := by
  by_cases hperm : k = "permissions"
  · subst hperm
    cases v
    all_goals try
      (rw [mergeFullEntry_perm_non_obj tgt _ (by rfl)] at h
       simp only [Except.ok.injEq, Prod.mk.injEq] at h
       rw [← h.2]
       intro it hit
       cases hit)
    rename_i srcPerms
    rw [mergeFullEntry_perm_obj tgt srcPerms
      (if containsKey tgt "permissions" then tgt else setKey tgt "permissions" defaultPerms)
      rfl] at h
    split at h
    · cases h
    · rename_i ta ia hstepA
      split at h
      · cases h
      · rename_i td idl hstepD
        simp only [Except.ok.injEq, Prod.mk.injEq] at h
        intro it hit
        rw [← h.2] at hit
        left
        rcases List.mem_append.mp hit with h2 | h2
        · cases hsa : (lookupKey srcPerms "allow").bind Json.asArr with
          | none =>
            rw [hsa] at hstepA
            simp only [mergePermStep, Except.ok.injEq, Prod.mk.injEq] at hstepA
            rw [← hstepA.2] at h2
            cases h2
          | some sa =>
            rw [hsa] at hstepA
            obtain ⟨s, hs1, _⟩ := mergePermStep_items hstepA it h2
            rw [hs1, str_data_append]
            exact List.mem_append.mpr (Or.inl (by decide))
        · cases hsd : (lookupKey srcPerms "deny").bind Json.asArr with
          | none =>
            rw [hsd] at hstepD
            simp only [mergePermStep, Except.ok.injEq, Prod.mk.injEq] at hstepD
            rw [← hstepD.2] at h2
            cases h2
          | some sd =>
            rw [hsd] at hstepD
            obtain ⟨s, hs1, _⟩ := mergePermStep_items hstepD it h2
            rw [hs1, str_data_append]
            exact List.mem_append.mpr (Or.inl (by decide))
  · by_cases henv : k = "env"
    · subst henv
      cases v
      all_goals try
        (rw [mergeFullEntry_env_non_obj tgt _ (by rfl)] at h
         simp only [Except.ok.injEq, Prod.mk.injEq] at h
         rw [← h.2]
         intro it hit
         cases hit)
      rename_i senv
      rw [mergeFullEntry_env_obj tgt senv
        (if containsKey tgt "env" then tgt else setKey tgt "env" (.obj [])) rfl] at h
      split at h
      · rename_i tenv htenv
        simp only [Except.ok.injEq, Prod.mk.injEq] at h
        intro it hit
        rw [← h.2] at hit
        rcases envFold_items_shape senv (tenv, []) it hit with h2 | h2
        · cases h2
        · obtain ⟨ek, rfl⟩ := h2
          left
          rw [str_data_append]
          exact List.mem_append.mpr (Or.inl (by decide))
      · simp only [Except.ok.injEq, Prod.mk.injEq] at h
        rw [← h.2]
        intro it hit
        cases hit
    · rw [mergeFullEntry_other tgt k v hperm henv] at h
      split at h
      · simp only [Except.ok.injEq, Prod.mk.injEq] at h
        rw [← h.2]
        intro it hit
        cases hit
      · rename_i hcond
        simp only [Except.ok.injEq, Prod.mk.injEq] at h
        intro it hit
        rw [← h.2] at hit
        right
        rw [List.mem_singleton] at hit
        subst hit
        cases hl : lookupKey tgt it with
        | none => rfl
        | some w => exact absurd (by rw [containsKey, hl]; rfl) hcond

theorem mergeFullFold_items_shape :
    ∀ (src : List (String × Json)) {tgt t2 : List (String × Json)} {items : List String},
      mergeFullFold tgt src = .ok (t2, items) →
      ∀ it ∈ items, (':' ∈ it.data) ∨ lookupKey tgt it = none := by
  intro src
  induction src with
  | nil =>
    intro tgt t2 items h it hit
    simp only [mergeFullFold, Except.ok.injEq, Prod.mk.injEq] at h
    rw [← h.2] at hit
    cases hit
  | cons hd rest ih =>
    obtain ⟨k, v⟩ := hd
    intro tgt t2 items h it hit
    obtain ⟨t1, i1, i2, hentry, hrest, hitems⟩ := mergeFullFold_cons_inv h
    subst hitems
    rcases List.mem_append.mp hit with h2 | h2
    · exact mergeFullEntry_items_shape hentry it h2
    · rcases ih hrest it h2 with h3 | h3
      · exact Or.inl h3
      · cases hl : lookupKey tgt it with
        | none => exact Or.inr rfl
        | some w =>
          obtain ⟨w', hw'⟩ := mergeFullEntry_presence_mono hentry hl
          rw [hw'] at h3
          cases h3

/-- C4 counterexample: a fresh `merge_full` of source `{"env":{"X":"1"}}` into
target `{}` records only `env:X`; `unmerge_full` strips `X` back out of the
env map but cannot remove the `env` container the merge auto-created, so the
round-trip leaves `{"env":{}}` instead of restoring `{}` — the top-level key
`env` introduced by the merge remains. -/
theorem c4_counterexample :
    mergeFull (.obj []) (.obj [("env", .obj [("X", .str "1")])]) "teamA" "ts"
      = .ok (.obj [("env", .obj [("X", .str "1")])], ⟨"teamA", "ts", ["env:X"], true⟩)
    ∧ (unmergeFull (.obj [("env", .obj [("X", .str "1")])])
        [⟨"teamA", "ts", ["env:X"], true⟩] "teamA").1
      = .obj [("env", .obj [])]
    ∧ (Json.obj [("env", .obj [])]).get "env" ≠ (Json.obj []).get "env" := by
  refine ⟨rfl, rfl, ?_⟩
  simp [Json.get, lookupKey]

/-- C4 (amended): for an object target whose top-level keys contain no colon,
merging a source object via `merge_full` from a fresh source (no prior history
records from that source) and then running `unmerge_full` restores every
top-level key OTHER THAN the `env` and `permissions` containers to its
pre-merge value: keys introduced by the merge are removed and pre-existing
keys keep their values.  The auto-created `env`/`permissions` containers
themselves may remain as leftover scaffolds (see `c4_counterexample`). -/
theorem c4_roundtrip_outside_containers
    (tgtKVs srcKVs : List (String × Json)) (name ts : String) (t1 : Json)
    (rec : MergeHistory) (h : List MergeHistory)
    (hmerge : mergeFull (.obj tgtKVs) (.obj srcKVs) name ts = .ok (t1, rec))
    (hfresh : ∀ r ∈ h, ¬ r.source = name)
    (hcolon : ∀ k ∈ tgtKVs.map Prod.fst, ¬ (':' ∈ k.data)) :
    ∀ k, k ≠ "permissions" → k ≠ "env" →
      (unmergeFull t1 (h ++ [rec]) name).1.get k = Json.get (.obj tgtKVs) k := by
  intro k hkp hke
  simp only [mergeFull] at hmerge
  split at hmerge
  · cases hmerge
  · rename_i t2 items0 hfold
    simp only [Except.ok.injEq, Prod.mk.injEq] at hmerge
    obtain ⟨ht1, hrec⟩ := hmerge
    subst ht1
    subst hrec
    have hitems : fullItems (h ++ [⟨name, ts, items0, true⟩]) name = items0 :=
      fullItems_append_fresh hfresh rfl rfl
    have hres : (unmergeFull (.obj t2) (h ++ [⟨name, ts, items0, true⟩]) name).1.get k
        = lookupKey (t2.filter (fun kv => ¬ kv.1 ∈ items0)) k := by
      rw [unmergeFull_obj]
      rw [unmergePermissions_get_ne _ _ _ hkp]
      show lookupKey ((fullItems (h ++ [⟨name, ts, items0, true⟩]) name).foldl stripItem
        (t2.filter (fun kv =>
          ¬ kv.1 ∈ fullItems (h ++ [⟨name, ts, items0, true⟩]) name))) k = _
      rw [stripFold_lookup_ne _ _ hkp hke, hitems]
    rw [hres]
    show _ = lookupKey tgtKVs k
    cases hl : lookupKey tgtKVs k with
    | some w =>
      have hnotin : ¬ k ∈ items0 := by
        intro hmem
        rcases mergeFullFold_items_shape srcKVs hfold k hmem with hc | hn
        · exact hcolon k (List.mem_map.mpr ⟨(k, w), lookup_mem_of_some hl, rfl⟩) hc
        · rw [hl] at hn
          cases hn
      rw [lookup_filter_notmem hnotin]
      exact mergeFullFold_pres_some srcKVs hfold hkp hke hl
    | none =>
      cases hs : lookupKey srcKVs k with
      | some v =>
        obtain ⟨_, hmem⟩ := mergeFullFold_new_key srcKVs hfold hkp hke hs hl
        rw [lookup_filter_mem hmem]
      | none =>
        by_cases hmem : k ∈ items0
        · rw [lookup_filter_mem hmem]
        · rw [lookup_filter_notmem hmem]
          rw [mergeFullFold_pres_absent_key srcKVs hfold (lookup_none_forall hs)]
          exact hl

/-- Witness for C4's amended theorem: merging `{"x":1,"env":{"X":"1"}}` into
`{"theme":"dark"}` and unmerging restores `x` to absent and keeps `theme`. -/
theorem c4_witness :
    (unmergeFull
        (.obj [("theme", .str "dark"), ("x", .num 1), ("env", .obj [("X", .str "1")])])
        ([] ++ [⟨"teamA", "ts", ["x", "env:X"], true⟩]) "teamA").1.get "x"
      = Json.get (.obj [("theme", .str "dark")]) "x"
    ∧ (unmergeFull
        (.obj [("theme", .str "dark"), ("x", .num 1), ("env", .obj [("X", .str "1")])])
        ([] ++ [⟨"teamA", "ts", ["x", "env:X"], true⟩]) "teamA").1.get "theme"
      = Json.get (.obj [("theme", .str "dark")]) "theme" := by
  constructor
  · exact c4_roundtrip_outside_containers [("theme", .str "dark")]
      [("x", .num 1), ("env", .obj [("X", .str "1")])] "teamA" "ts"
      (.obj [("theme", .str "dark"), ("x", .num 1), ("env", .obj [("X", .str "1")])])
      ⟨"teamA", "ts", ["x", "env:X"], true⟩ [] rfl (by intro r hr; cases hr)
      (by intro kk hkk; simp at hkk; subst hkk; decide) "x" (by decide) (by decide)
  · exact c4_roundtrip_outside_containers [("theme", .str "dark")]
      [("x", .num 1), ("env", .obj [("X", .str "1")])] "teamA" "ts"
      (.obj [("theme", .str "dark"), ("x", .num 1), ("env", .obj [("X", .str "1")])])
      ⟨"teamA", "ts", ["x", "env:X"], true⟩ [] rfl (by intro r hr; cases hr)
      (by intro kk hkk; simp at hkk; subst hkk; decide) "theme" (by decide) (by decide)
